import Mathlib

/-!
Verification of core components of the iperf-cnc repository: the daemon's
port allocator and capacity accountant, the result collector, the controller's
topology planner, the aggregator summary, the daemon RPC batch handlers, and
the iperf3 argv builder.  Go maps are modelled as association lists with
insert-or-replace / delete-first semantics, Go ints as `Int` (or `Nat` where
the source only ever holds non-negative values), and fallible Go functions as
`Except String`-returning functions paired with the post-state.
-/

namespace IperfCnc

/-! ## Association-list model of Go maps -/

/-- `m[k] = v` on a Go map: replace the binding of `k` if present, else append. -/
def setA {κ ν : Type} [BEq κ] : List (κ × ν) → κ → ν → List (κ × ν)
  | [], k, v => [(k, v)]
  | (k0, v0) :: rest, k, v =>
    if k0 == k then (k, v) :: rest else (k0, v0) :: setA rest k v

/-- `delete(m, k)` on a Go map: remove the (first) binding of `k`. -/
def delA {κ ν : Type} [BEq κ] : List (κ × ν) → κ → List (κ × ν)
  | [], _ => []
  | (k0, v0) :: rest, k =>
    if k0 == k then rest else (k0, v0) :: delA rest k

/-- `m[k] = true` on a Go `map[int]bool` used as a set: add `k` if absent. -/
def addSet (s : List Nat) (p : Nat) : List Nat :=
  if p ∈ s then s else s ++ [p]

/-! ## Capacity accountant (`internal/daemon/process`, `CapacityCalculator`) -/

namespace Capacity

/-- State of `process.CapacityCalculator`: a bounded counter of used slots. -/
structure CapacityCalculator where
  maxProcesses : Int
  usedSlots : Int
deriving DecidableEq

/-- `process.NewCapacityCalculator`. -/
def NewCapacityCalculator (maxProcesses : Int) : CapacityCalculator :=
  ⟨maxProcesses, 0⟩

/-- `CapacityCalculator.ReserveSlots`: reserve `count` slots or fail without
changing the counter. -/
def ReserveSlots (c : CapacityCalculator) (count : Nat) :
    Except String CapacityCalculator :=
  if c.maxProcesses < c.usedSlots + count then
    .error ("insufficient capacity: need " ++ toString count ++ " slots, have "
      ++ toString (c.maxProcesses - c.usedSlots) ++ " available")
  else
    .ok ⟨c.maxProcesses, c.usedSlots + count⟩

/-- `CapacityCalculator.ReleaseSlots`: release `count` slots, flooring at zero. -/
def ReleaseSlots (c : CapacityCalculator) (count : Nat) : CapacityCalculator :=
  let u := c.usedSlots - count
  if u < 0 then ⟨c.maxProcesses, 0⟩ else ⟨c.maxProcesses, u⟩

/-- `CapacityCalculator.GetAvailableSlots`. -/
def GetAvailableSlots (c : CapacityCalculator) : Int :=
  c.maxProcesses - c.usedSlots

/-- `CapacityCalculator.GetUsedSlots`. -/
def GetUsedSlots (c : CapacityCalculator) : Int :=
  c.usedSlots

/-- One external call on the accountant. -/
inductive CapOp where
  | reserve (count : Nat)
  | release (count : Nat)
deriving DecidableEq

/-- Effect of one call on the accountant state (a failed reserve leaves the
counter unchanged, as `ReserveSlots` returns before mutating). -/
def stepCap (c : CapacityCalculator) : CapOp → CapacityCalculator
  | .reserve n =>
    match ReserveSlots c n with
    | .ok c2 => c2
    | .error _ => c
  | .release n => ReleaseSlots c n

/-- State after a sequence of reserve/release calls. -/
def execCap (c : CapacityCalculator) (ops : List CapOp) : CapacityCalculator :=
  ops.foldl stepCap c

end Capacity

/-! ## Test profiles and argv construction (`internal/common/models`) -/

namespace Models

/-- `models.ProtocolTCP`. -/
def ProtocolTCP : String := "tcp"

/-- `models.ProtocolUDP`. -/
def ProtocolUDP : String := "udp"

/-- `models.TestProfile`.  `Protocol` is a Go string type; `ExtraFlags` is a
`map[string]string`, modelled as an association list (the Go iteration order
is unspecified, and no verified property depends on it). -/
structure TestProfile where
  Name : String
  Duration : Int
  Protocol : String
  Bandwidth : String
  WindowSize : String
  Parallel : Int
  Bidirectional : Bool
  Reverse : Bool
  BufferLength : Int
  CongestionControl : String
  MSS : Int
  NoDelay : Bool
  TOS : Int
  ZeroCopy : Bool
  OmitSeconds : Int
  ExtraFlags : List (String × String)
deriving DecidableEq

/-- `TestProfile.ToCommandArgs`: the iperf3 argv fragment for a profile, as
the concatenation of the conditional appends performed by the source, in the
same order. -/
def ToCommandArgs (p : TestProfile) : List String :=
  (if p.Protocol = ProtocolUDP then ["-u"] else [])
  ++ ["-t", toString p.Duration]
  ++ (if p.Bandwidth ≠ "" ∧ p.Bandwidth ≠ "0" then ["-b", p.Bandwidth] else [])
  ++ (if p.WindowSize ≠ "" then ["-w", p.WindowSize] else [])
  ++ (if p.Parallel > 1 then ["-P", toString p.Parallel] else [])
  ++ (if p.Bidirectional then ["--bidir"] else [])
  ++ (if p.Reverse then ["-R"] else [])
  ++ (if p.BufferLength > 0 then ["-l", toString p.BufferLength] else [])
  ++ (if p.Protocol ≠ ProtocolUDP ∧ p.CongestionControl ≠ "" then
        ["-C", p.CongestionControl] else [])
  ++ (if p.Protocol ≠ ProtocolUDP ∧ p.MSS > 0 then ["-M", toString p.MSS] else [])
  ++ (if p.Protocol ≠ ProtocolUDP ∧ p.NoDelay then ["-N"] else [])
  ++ (if p.TOS > 0 then ["-S", toString p.TOS] else [])
  ++ (if p.ZeroCopy then ["-Z"] else [])
  ++ (if p.OmitSeconds > 0 then ["-O", toString p.OmitSeconds] else [])
  ++ ["-J"]
  ++ p.ExtraFlags.flatMap (fun kv => if kv.2 = "" then [kv.1] else [kv.1, kv.2])

/-- The option tokens whose placement C9 is about: `-u` plus the TCP-only
flags `-C`, `-M`, `-N`. -/
def optTokens : List String := ["-u", "-C", "-M", "-N"]

/-- The free-form string fields of a profile do not themselves spell one of
`optTokens` (the claim is about the flags emitted by the construction rules,
not about smuggling flag strings through value fields). -/
def CleanStrings (p : TestProfile) : Prop :=
  ∀ t ∈ optTokens,
    t ≠ p.Bandwidth ∧ t ≠ p.WindowSize ∧ t ≠ p.CongestionControl
    ∧ t ≠ toString p.Duration ∧ t ≠ toString p.Parallel
    ∧ t ≠ toString p.BufferLength ∧ t ≠ toString p.MSS
    ∧ t ≠ toString p.TOS ∧ t ≠ toString p.OmitSeconds
    ∧ ∀ kv ∈ p.ExtraFlags, t ≠ kv.1 ∧ t ≠ kv.2

instance (p : TestProfile) : Decidable (CleanStrings p) := by
  unfold CleanStrings
  infer_instance

/-- A concrete UDP profile (used to instantiate C9). -/
def uProf : TestProfile :=
  ⟨"udp-sample", 10, "udp", "", "", 1, false, false, 0, "cubic", 1400, true, 0,
    false, 0, []⟩

end Models

/-! ## Port allocator (`internal/daemon/port`, `Allocator`) -/

namespace Port

/-- State of `port.Allocator`: a fixed range plus three synchronized indices.
`allocatedPorts` models the key set of the Go `map[int]bool` (the source only
ever stores `true`); the two direction maps are association lists. -/
structure Allocator where
  startPort : Nat
  endPort : Nat
  allocatedPorts : List Nat
  portToTestID : List (Nat × String)
  testIDToPort : List (String × Nat)
deriving DecidableEq

/-- `port.NewAllocator`: validates the range and returns an empty allocator. -/
def NewAllocator (startPort endPort : Nat) : Except String Allocator :=
  if startPort < 1 ∨ startPort > 65535 then
    .error ("invalid start port: " ++ toString startPort)
  else if endPort < 1 ∨ endPort > 65535 then
    .error ("invalid end port: " ++ toString endPort)
  else if startPort ≥ endPort then
    .error "start port must be less than end port"
  else
    .ok ⟨startPort, endPort, [], [], []⟩

/-- The candidate ports `startPort, startPort+1, ..., endPort`, in the order
the source's `for port := a.startPort; port <= a.endPort; port++` visits them. -/
def portScan (a : Allocator) : List Nat :=
  List.range' a.startPort (a.endPort + 1 - a.startPort)

/-- `Allocator.AllocatePort`: return the port already held by `testID` if any,
else claim the lowest free port, else fail. -/
def AllocatePort (a : Allocator) (testID : String) :
    Except String Nat × Allocator :=
  match List.lookup testID a.testIDToPort with
  | some port => (.ok port, a)
  | none =>
    match (portScan a).find? (fun port => decide (port ∉ a.allocatedPorts)) with
    | some port =>
      (.ok port,
        ⟨a.startPort, a.endPort, addSet a.allocatedPorts port,
          setA a.portToTestID port testID, setA a.testIDToPort testID port⟩)
    | none =>
      (.error ("no available ports in range " ++ toString a.startPort ++ "-"
        ++ toString a.endPort), a)

/-- The scanning loop of `Allocator.AllocatePorts`: walk the range collecting
free ports until `count` of them are found. -/
def collectFree : List Nat → List Nat → Nat → List Nat
  | _, _, 0 => []
  | [], _, _ => []
  | p :: rest, alloc, Nat.succ k =>
    if p ∈ alloc then collectFree rest alloc (k + 1)
    else p :: collectFree rest alloc k

/-- `Allocator.AllocatePorts`: atomically reserve `count` lowest free ports or
fail leaving the state unchanged.  Note the source marks the ports in
`allocatedPorts` only — it creates no test-id mappings. -/
def AllocatePorts (a : Allocator) (count : Nat) :
    Except String (List Nat) × Allocator :=
  let ports := collectFree (portScan a) a.allocatedPorts count
  if ports.length < count then
    (.error ("insufficient ports: need " ++ toString count ++ ", found "
      ++ toString ports.length), a)
  else
    (.ok ports,
      ⟨a.startPort, a.endPort, ports.foldl addSet a.allocatedPorts,
        a.portToTestID, a.testIDToPort⟩)

/-- `Allocator.ReleasePort`: release by test id, removing all three entries. -/
def ReleasePort (a : Allocator) (testID : String) :
    Except String Unit × Allocator :=
  match List.lookup testID a.testIDToPort with
  | none => (.error ("test " ++ testID ++ " has no allocated port"), a)
  | some port =>
    (.ok (),
      ⟨a.startPort, a.endPort, a.allocatedPorts.erase port,
        delA a.portToTestID port, delA a.testIDToPort testID⟩)

/-- `Allocator.ReleasePortByNumber`: release by port number; the test id is
read from `portToTestID` (Go's zero value `""` if the entry is missing). -/
def ReleasePortByNumber (a : Allocator) (port : Nat) :
    Except String Unit × Allocator :=
  if port ∈ a.allocatedPorts then
    let testID := (List.lookup port a.portToTestID).getD ""
    (.ok (),
      ⟨a.startPort, a.endPort, a.allocatedPorts.erase port,
        delA a.portToTestID port, delA a.testIDToPort testID⟩)
  else
    (.error ("port " ++ toString port ++ " is not allocated"), a)

/-- `Allocator.ReleaseAll`: reset all three indices. -/
def ReleaseAll (a : Allocator) : Allocator :=
  ⟨a.startPort, a.endPort, [], [], []⟩

/-- `Allocator.GetAllocatedCount`. -/
def GetAllocatedCount (a : Allocator) : Int :=
  a.allocatedPorts.length

/-- `Allocator.GetCapacity`. -/
def GetCapacity (a : Allocator) : Int :=
  (a.endPort : Int) - (a.startPort : Int) + 1

/-- `Allocator.GetAvailableCount`. -/
def GetAvailableCount (a : Allocator) : Int :=
  GetCapacity a - a.allocatedPorts.length

/-- One external call on the allocator. -/
inductive AllocOp where
  | alloc (testID : String)
  | allocN (count : Nat)
  | release (testID : String)
  | releaseByNum (port : Nat)
  | releaseAll
deriving DecidableEq

/-- Effect of one call on the allocator state. -/
def stepAlloc (a : Allocator) : AllocOp → Allocator
  | .alloc tid => (AllocatePort a tid).2
  | .allocN c => (AllocatePorts a c).2
  | .release tid => (ReleasePort a tid).2
  | .releaseByNum p => (ReleasePortByNumber a p).2
  | .releaseAll => ReleaseAll a

/-- State after a sequence of allocator calls. -/
def execAlloc (a : Allocator) (ops : List AllocOp) : Allocator :=
  ops.foldl stepAlloc a

/-- No `AllocatePorts` call occurs in the sequence. -/
def noAllocN (ops : List AllocOp) : Prop :=
  ∀ c : Nat, AllocOp.allocN c ∉ ops

/-- The three indices are mutually consistent: the allocated-port set is the
domain of `portToTestID`, and the two maps are mutually inverse. -/
structure Consistent (a : Allocator) : Prop where
  nodupAlloc : a.allocatedPorts.Nodup
  nodupP2T : (a.portToTestID.map Prod.fst).Nodup
  nodupT2P : (a.testIDToPort.map Prod.fst).Nodup
  allocIff : ∀ p, p ∈ a.allocatedPorts ↔ (List.lookup p a.portToTestID).isSome
  p2t_t2p : ∀ p tid, List.lookup p a.portToTestID = some tid →
    List.lookup tid a.testIDToPort = some p
  t2p_p2t : ∀ tid p, List.lookup tid a.testIDToPort = some p →
    List.lookup p a.portToTestID = some tid

/-- The free ports of the range, lowest first. -/
def freePorts (a : Allocator) : List Nat :=
  (portScan a).filter (fun port => decide (port ∉ a.allocatedPorts))

end Port

/-! ## Result collector (`internal/daemon/collector`, `Collector`) -/

namespace Collector

/-- `collector.TestResult`.  The Go `time.Time` fields are omitted: no
verified property mentions them.  `Status` is the Go status string. -/
structure TestResult where
  TestID : String
  Status : String
  IperfJSON : String
  ErrorMessage : String
  ExitCode : Int
deriving DecidableEq

/-- State of `collector.Collector`: results keyed by test id plus the two
outcome counters. -/
structure Collector where
  results : List (String × TestResult)
  completed : Int
  failed : Int
deriving DecidableEq

/-- `collector.NewCollector` (the result directory plays no role here). -/
def NewCollector : Collector := ⟨[], 0, 0⟩

/-- `Collector.StoreResult`: store keyed by test id (overwriting any previous
entry) and bump the counter matching the status. -/
def StoreResult (c : Collector) (r : TestResult) : Except String Collector :=
  if r.TestID = "" then .error "test ID cannot be empty"
  else
    .ok ⟨setA c.results r.TestID r,
      (if r.Status = "completed" then c.completed + 1 else c.completed),
      (if r.Status = "completed" then c.failed
       else if r.Status = "failed" then c.failed + 1 else c.failed)⟩

/-- `Collector.StoreIperfResult`: wrap an iperf run outcome as a result with
status `"completed"` on success and `"failed"` otherwise, then store it. -/
def StoreIperfResult (c : Collector) (testID : String) (success : Bool)
    (json errmsg : String) (exitCode : Int) : Except String Collector :=
  StoreResult c
    ⟨testID, if success then "completed" else "failed", json, errmsg, exitCode⟩

/-- The shared removal step of `ClearResult` / `ClearResults`: delete the
entry if present and decrement the counter matching its status. -/
def clearFound (c : Collector) (testID : String) : Collector :=
  match List.lookup testID c.results with
  | none => c
  | some r =>
    ⟨delA c.results testID,
      (if r.Status = "completed" then c.completed - 1 else c.completed),
      (if r.Status = "completed" then c.failed
       else if r.Status = "failed" then c.failed - 1 else c.failed)⟩

/-- `Collector.ClearResult`: remove one result or fail if absent. -/
def ClearResult (c : Collector) (testID : String) : Except String Collector :=
  match List.lookup testID c.results with
  | none => .error ("result for test " ++ testID ++ " not found")
  | some _ => .ok (clearFound c testID)

/-- `Collector.ClearResults`: remove each present id, skipping absent ones. -/
def ClearResults (c : Collector) (testIDs : List String) : Collector :=
  testIDs.foldl clearFound c

/-- `Collector.ClearAll`. -/
def ClearAll (_ : Collector) : Collector := ⟨[], 0, 0⟩

/-- `Collector.GetCount`. -/
def GetCount (c : Collector) : Int := c.results.length

/-- `Collector.GetCompletedCount`. -/
def GetCompletedCount (c : Collector) : Int := c.completed

/-- `Collector.GetFailedCount`. -/
def GetFailedCount (c : Collector) : Int := c.failed

/-- One external call on the collector (C10's operation set). -/
inductive ColOp where
  | store (testID : String) (success : Bool) (json errmsg : String)
      (exitCode : Int)
  | clearOne (testID : String)
  | clearMany (testIDs : List String)
  | clearAll
deriving DecidableEq

/-- Effect of one call (a failed call leaves the state unchanged). -/
def stepCol (c : Collector) : ColOp → Collector
  | .store tid success json errmsg ec =>
    match StoreIperfResult c tid success json errmsg ec with
    | .ok c2 => c2
    | .error _ => c
  | .clearOne tid =>
    match ClearResult c tid with
    | .ok c2 => c2
    | .error _ => c
  | .clearMany tids => ClearResults c tids
  | .clearAll => ClearAll c

/-- State after a sequence of collector calls. -/
def execCol (c : Collector) (ops : List ColOp) : Collector :=
  ops.foldl stepCol c

/-- `true` when `op` is not a store, or stores under a test id that is
currently absent. -/
def storeTargetsFresh : Collector → ColOp → Bool
  | c, .store tid _ _ _ _ => (List.lookup tid c.results).isNone
  | _, _ => true

/-- `true` when no store in the sequence targets a test id that is present
at the time of the store. -/
def noOverwrite : Collector → List ColOp → Bool
  | _, [] => true
  | c, op :: rest => storeTargetsFresh c op && noOverwrite (stepCol c op) rest

/-- Number of stored results carrying status `s`. -/
def countStatus (s : String) (m : List (String × TestResult)) : Int :=
  ((m.filter (fun kv => decide (kv.2.Status = s))).length : Int)

end Collector

/-! ## Result aggregation (`internal/controller/aggregator`, `GetSummary`) -/

namespace Aggregator

/-- `aggregator.TestResult` restricted to the fields `GetSummary` reads.
`ThroughputBps` is a Go `float64`; it is modelled as a rational, which is
sound here because the property at issue (which results the divisor counts)
is structural, not a rounding artifact. -/
structure TestResult where
  TestID : String
  Status : String
  ThroughputBps : ℚ
  Retransmits : Int
deriving DecidableEq

/-- `aggregator.Summary`. -/
structure Summary where
  TotalTests : Int
  CompletedTests : Int
  FailedTests : Int
  AvgThroughput : ℚ
  MinThroughput : ℚ
  MaxThroughput : ℚ
  TotalRetransmits : Int
deriving DecidableEq

/-- The body of `GetSummary`'s result loop, threading the summary under
construction and the running `totalThroughput`. -/
def sumStep (acc : Summary × ℚ) (r : TestResult) : Summary × ℚ :=
  let s := acc.1
  let tot := acc.2
  if r.Status = "TEST_STATUS_COMPLETED" then
    let tot2 := if r.ThroughputBps > 0 then tot + r.ThroughputBps else tot
    let mn := if r.ThroughputBps > 0
        ∧ (s.MinThroughput < 0 ∨ r.ThroughputBps < s.MinThroughput)
      then r.ThroughputBps else s.MinThroughput
    let mx := if r.ThroughputBps > 0 ∧ r.ThroughputBps > s.MaxThroughput
      then r.ThroughputBps else s.MaxThroughput
    (⟨s.TotalTests, s.CompletedTests + 1, s.FailedTests, s.AvgThroughput,
      mn, mx, s.TotalRetransmits + r.Retransmits⟩, tot2)
  else if r.Status = "TEST_STATUS_FAILED" then
    (⟨s.TotalTests, s.CompletedTests, s.FailedTests + 1, s.AvgThroughput,
      s.MinThroughput, s.MaxThroughput, s.TotalRetransmits⟩, tot)
  else acc

/-- `Aggregator.GetSummary` over the collected results (the Go map iteration
order is unspecified; every field below is order-independent). -/
def GetSummary (results : List TestResult) : Summary :=
  let p := results.foldl sumStep
    (⟨(results.length : Int), 0, 0, 0, -1, 0, 0⟩, 0)
  let s := p.1
  let avg := if s.CompletedTests > 0 then p.2 / (s.CompletedTests : ℚ)
    else s.AvgThroughput
  let mn := if s.MinThroughput < 0 then 0 else s.MinThroughput
  ⟨s.TotalTests, s.CompletedTests, s.FailedTests, avg, mn, s.MaxThroughput,
    s.TotalRetransmits⟩

/-- Number of results with completed status. -/
def countCompleted (results : List TestResult) : Nat :=
  (results.filter (fun r => decide (r.Status = "TEST_STATUS_COMPLETED"))).length

/-- Sum of `ThroughputBps` over the completed results with positive
throughput. -/
def posSum (results : List TestResult) : ℚ :=
  ((results.filter (fun r =>
      decide (r.Status = "TEST_STATUS_COMPLETED" ∧ r.ThroughputBps > 0))).map
    (fun r => r.ThroughputBps)).sum

/-- Modelled from the spec's words, for comparison with `GetSummary`: the
arithmetic mean of `throughput_bps` over exactly the completed results with
positive throughput, and 0 when there are none. -/
def specAvgThroughput (results : List TestResult) : ℚ :=
  let pos := results.filter (fun r =>
    decide (r.Status = "TEST_STATUS_COMPLETED" ∧ r.ThroughputBps > 0))
  if pos.length = 0 then 0
  else ((pos.map (fun r => r.ThroughputBps)).sum) / (pos.length : ℚ)

end Aggregator

/-! ## Daemon RPC batch handlers (`internal/daemon/server`, `DaemonServer`) -/

namespace Server

/-- The per-item loop shared by `StartServers` and `StartClients`: walk the
items in order, calling the per-item start function (which may mutate the
daemon state and may fail), and partition the items into successes and
(item, error) failures, both in encounter order.  The process-spawning start
functions themselves are abstracted as an arbitrary state transformer, since
the handlers only inspect whether an error was returned. -/
def runBatch {σ α : Type} (startOne : σ → α → σ × Option String) :
    σ → List α → σ × List α × List (α × String)
  | st, [] => (st, [], [])
  | st, item :: rest =>
    let r := startOne st item
    match r.2 with
    | none =>
      let t := runBatch startOne r.1 rest
      (t.1, item :: t.2.1, t.2.2)
    | some e =>
      let t := runBatch startOne r.1 rest
      (t.1, t.2.1, (item, e) :: t.2.2)

/-- `pb.StartServersResponse` (the fields the handler fills). -/
structure StartServersResponse where
  Success : Bool
  Message : String
  StartedPorts : List Nat
  Errors : List String
deriving DecidableEq

/-- `pb.ClientTarget` restricted to the fields the handler reads. -/
structure ClientTarget where
  TestId : String
  DestinationIp : String
  DestinationPort : Nat
deriving DecidableEq

/-- `pb.StartClientsResponse` (the fields the handler fills). -/
structure StartClientsResponse where
  Success : Bool
  Message : String
  StartedTestIds : List String
  Errors : List String
deriving DecidableEq

/-- `DaemonServer.StartServers`: per-port start with per-item error
collection; success iff at least one server started. -/
def StartServers {σ : Type} (startServer : σ → Nat → σ × Option String)
    (st : σ) (ports : List Nat) : StartServersResponse × σ :=
  if ports.length = 0 then
    (⟨false, "no ports specified", [], []⟩, st)
  else
    let t := runBatch startServer st ports
    (⟨decide (0 < t.2.1.length),
      "started " ++ toString t.2.1.length ++ "/" ++ toString ports.length
        ++ " servers",
      t.2.1,
      t.2.2.map (fun pe => "port " ++ toString pe.1 ++ ": " ++ pe.2)⟩, t.1)

/-- `DaemonServer.StartClients`: per-target start with per-item error
collection; success iff at least one client started. -/
def StartClients {σ : Type} (startClient : σ → ClientTarget → σ × Option String)
    (st : σ) (targets : List ClientTarget) : StartClientsResponse × σ :=
  if targets.length = 0 then
    (⟨false, "no targets specified", [], []⟩, st)
  else
    let t := runBatch startClient st targets
    (⟨decide (0 < t.2.1.length),
      "started " ++ toString t.2.1.length ++ "/" ++ toString targets.length
        ++ " clients",
      t.2.1.map (fun tg => tg.TestId),
      t.2.2.map (fun te => "test " ++ te.1.TestId ++ ": " ++ te.2)⟩, t.1)

end Server

/-! ## Topology planner (`internal/controller/topology`)

Nodes are modelled by their ids: `NodeRegistry.AddNode` enforces id
uniqueness (`Nodup` below) and `GetAllNodes` returns insertion order, so a
registry is a duplicate-free list of ids.  Profile resolution
(`getProfileForPair`: override lookup with fallback to the default) is
modelled as a function from (source, destination) to the profile. -/

namespace Topology

/-- `topology.TestPair`: the test counter, the id string
`"test-<n>-<src>-to-<dst>"`, both node ids, and the resolved profile. -/
structure TestPair where
  testNum : Nat
  TestID : String
  Source : String
  Destination : String
  Profile : Models.TestProfile
deriving DecidableEq

/-- `topology.Topology`: the pair list plus the two per-node maps. -/
structure Topology where
  Pairs : List TestPair
  ServerPorts : List (String × List Nat)
  ClientTests : List (String × List TestPair)
deriving DecidableEq

/-- The ordered (source, destination) pairs of `GenerateFullMesh`'s double
loop: sources in registry order, destinations in registry order, identical
ids skipped. -/
def orderedPairs (nodes : List String) : List (String × String) :=
  nodes.flatMap (fun s =>
    (nodes.filter (fun d => decide (d ≠ s))).map (fun d => (s, d)))

/-- The pair list of `Generator.GenerateFullMesh`, with the running
`testCounter` realised as the position in generation order. -/
def fullMeshPairs (nodes : List String)
    (prof : String → String → Models.TestProfile) : List TestPair :=
  (orderedPairs nodes).enum.map (fun ie =>
    ⟨ie.1 + 1,
      "test-" ++ toString (ie.1 + 1) ++ "-" ++ ie.2.1 ++ "-to-" ++ ie.2.2,
      ie.2.1, ie.2.2, prof ie.2.1 ie.2.2⟩)

/-- The server-port allocation loop of `Generator.GenerateFullMesh`: walk the
nodes in registry order handing each the next `numPorts` consecutive ports
from the running counter. -/
def allocServerPorts : List String → Nat → Nat → List (String × List Nat)
  | [], _, _ => []
  | n :: rest, numPorts, ctr =>
    (n, (List.range numPorts).map (fun i => ctr + i))
      :: allocServerPorts rest numPorts (ctr + numPorts)

/-- `Generator.GenerateFullMesh` (the N−1-ports variant shipped in
`internal/controller/topology`): requires at least two nodes, enumerates the
pairs, tracks client tests by source, and allocates `N−1` consecutive ports
per node starting at 5201. -/
def GenerateFullMesh (nodes : List String)
    (prof : String → String → Models.TestProfile) : Except String Topology :=
  if nodes.length < 2 then
    .error "at least 2 nodes required for mesh topology"
  else
    let pairs := fullMeshPairs nodes prof
    .ok ⟨pairs,
      allocServerPorts nodes (nodes.length - 1) 5201,
      nodes.map (fun s => (s, pairs.filter (fun p => decide (p.Source = s))))⟩

/-- The source ids of the pairs targeting destination `d`, in pair order —
the `sourceNodes` list both loops of `GenerateNodeTopologies` construct. -/
def sourcesOf (pairs : List TestPair) (d : String) : List String :=
  (pairs.filter (fun p => decide (p.Destination = d))).map
    (fun p => p.Source)

/-- The `sourceToPort` loop of `GenerateNodeTopologies`: assign
`ports[i]` to the i-th source, skipping indices beyond the port list. -/
def buildS2PGo : List String → List Nat → Nat → List (String × Nat) →
    List (String × Nat)
  | [], _, _, m => m
  | s :: rest, ports, i, m =>
    buildS2PGo rest ports (i + 1)
      (if i < ports.length then setA m s (ports.getD i 0) else m)

/-- `sourceToPort` built from index 0 and an empty map. -/
def buildSourceToPort (sources : List String) (ports : List Nat) :
    List (String × Nat) :=
  buildS2PGo sources ports 0 []

/-- One `pb.TestPair` entry of a per-node assignment list, restricted to the
fields the port-consistency claim is about. -/
structure Assign where
  SourceId : String
  DestinationId : String
  DestinationPort : Nat
deriving DecidableEq

/-- The server-assignment loop of `GenerateNodeTopologies` for destination
`d` with its allocated `ports`: every pair targeting `d` gets the port the
`sourceToPort` map holds for its source, or the whole construction fails. -/
def serverAssignsFor (pairs : List TestPair) (d : String) (ports : List Nat) :
    Except String (List Assign) :=
  let stp := buildSourceToPort (sourcesOf pairs d) ports
  (pairs.filter (fun p => decide (p.Destination = d))).mapM (fun p =>
    match List.lookup p.Source stp with
    | some port => .ok (⟨p.Source, d, port⟩ : Assign)
    | none => .error ("no port allocated for source " ++ p.Source
        ++ " -> dest " ++ d))

/-- The client-assignment computation of `GenerateNodeTopologies` for the
pair (src, dst): index of `src` in dst's source list, bounds-checked against
dst's port list. -/
def clientPortCalc (pairs : List TestPair)
    (serverPorts : List (String × List Nat)) (src dst : String) :
    Except String Nat :=
  let destPorts := (List.lookup dst serverPorts).getD []
  if destPorts.length = 0 then
    .error ("no server port allocated for node " ++ dst)
  else
    match (sourcesOf pairs dst).findIdx? (fun x => x == src) with
    | none => .error ("no port index found for source " ++ src
        ++ " -> dest " ++ dst)
    | some i =>
      match destPorts[i]? with
      | some port => .ok port
      | none => .error ("no port index found for source " ++ src
          ++ " -> dest " ++ dst)

/-- `models.TestMatrix.GenerateFullMesh` (the variant in
`internal/common/models`): the same double loop, but after each assignment a
bidirectional profile additionally emits the reverse (destination, source)
assignment.  Each entry is (counter, source, destination). -/
def matrixGo (prof : String → String → Models.TestProfile) :
    List (String × String) → Nat → List (Nat × String × String)
  | [], _ => []
  | (s, d) :: rest, ctr =>
    if (prof s d).Bidirectional then
      (ctr + 1, s, d) :: (ctr + 2, d, s) :: matrixGo prof rest (ctr + 2)
    else
      (ctr + 1, s, d) :: matrixGo prof rest (ctr + 1)

/-- `TestMatrix.GenerateFullMesh` over a node registry. -/
def TestMatrixGenerateFullMesh (nodes : List String)
    (prof : String → String → Models.TestProfile) :
    List (Nat × String × String) :=
  matrixGo prof (orderedPairs nodes) 0

end Topology

namespace Models

/-- A concrete bidirectional TCP profile (used to instantiate C3). -/
def bProf : TestProfile :=
  ⟨"bidir-sample", 5, "tcp", "", "", 1, true, false, 0, "", 0, false, 0,
    false, 0, []⟩

end Models

end IperfCnc

namespace IperfCnc

/-! ## Theorems -/

section AssocLemmas

variable {κ ν : Type} [BEq κ] [LawfulBEq κ] [DecidableEq κ]

theorem lookup_cons (k0 : κ) (v0 : ν) (rest : List (κ × ν)) (k : κ) :
    List.lookup k ((k0, v0) :: rest) =
      if k = k0 then some v0 else List.lookup k rest := by
  by_cases h : k = k0
  · have hb : (k == k0) = true := by simp [h]
    simp [List.lookup, hb, h]
  · have hb : (k == k0) = false := by simp [h]
    simp [List.lookup, hb, h]

theorem setA_cons_eq {k0 k : κ} (v0 v : ν) (rest : List (κ × ν))
    (h : k0 = k) : setA ((k0, v0) :: rest) k v = (k, v) :: rest := by
  simp [setA, h]

theorem setA_cons_ne {k0 k : κ} (v0 v : ν) (rest : List (κ × ν))
    (h : ¬ k0 = k) : setA ((k0, v0) :: rest) k v = (k0, v0) :: setA rest k v := by
  simp [setA, h]

theorem delA_cons_eq {k0 k : κ} (v0 : ν) (rest : List (κ × ν))
    (h : k0 = k) : delA ((k0, v0) :: rest) k = rest := by
  simp [delA, h]

theorem delA_cons_ne {k0 k : κ} (v0 : ν) (rest : List (κ × ν))
    (h : ¬ k0 = k) : delA ((k0, v0) :: rest) k = (k0, v0) :: delA rest k := by
  simp [delA, h]

theorem lookup_setA_self (m : List (κ × ν)) (k : κ) (v : ν) :
    List.lookup k (setA m k v) = some v := by
  induction m with
  | nil => simp [setA, lookup_cons]
  | cons kv rest ih =>
    obtain ⟨k0, v0⟩ := kv
    by_cases h : k0 = k
    · simp [setA, h, lookup_cons]
    · have hb : (k0 == k) = false := by simp [h]
      simp [setA, hb, lookup_cons, Ne.symm h, ih]

theorem lookup_setA_ne (m : List (κ × ν)) (k k' : κ) (v : ν) (h : k' ≠ k) :
    List.lookup k' (setA m k v) = List.lookup k' m := by
  induction m with
  | nil => simp [setA, lookup_cons, h]
  | cons kv rest ih =>
    obtain ⟨k0, v0⟩ := kv
    by_cases h0 : k0 = k
    · subst h0
      simp [setA, lookup_cons, h]
    · have hb : (k0 == k) = false := by simp [h0]
      by_cases h1 : k' = k0
      · simp [setA, hb, lookup_cons, h1]
      · simp [setA, hb, lookup_cons, h1, ih]

theorem setA_of_lookup_none (m : List (κ × ν)) (k : κ) (v : ν)
    (h : List.lookup k m = none) : setA m k v = m ++ [(k, v)] := by
  induction m with
  | nil => simp [setA]
  | cons kv rest ih =>
    obtain ⟨k0, v0⟩ := kv
    rw [lookup_cons] at h
    by_cases h1 : k = k0
    · rw [if_pos h1] at h
      exact absurd h (by simp)
    · have hb : (k0 == k) = false := by simp [Ne.symm h1]
      rw [if_neg h1] at h
      simp [setA, hb, ih h]

theorem map_fst_delA (m : List (κ × ν)) (k : κ) :
    (delA m k).map Prod.fst = (m.map Prod.fst).erase k := by
  induction m with
  | nil => simp [delA]
  | cons kv rest ih =>
    obtain ⟨k0, v0⟩ := kv
    by_cases h : k0 = k
    · subst h
      simp [delA, List.erase_cons]
    · have hb : (k0 == k) = false := by simp [h]
      simp [delA, hb, List.erase_cons, h, ih]

theorem lookup_delA_ne (m : List (κ × ν)) (k k' : κ) (h : k' ≠ k) :
    List.lookup k' (delA m k) = List.lookup k' m := by
  induction m with
  | nil => simp [delA]
  | cons kv rest ih =>
    obtain ⟨k0, v0⟩ := kv
    by_cases h0 : k0 = k
    · subst h0
      simp [delA, lookup_cons, h]
    · have hb : (k0 == k) = false := by simp [h0]
      by_cases h1 : k' = k0
      · simp [delA, hb, lookup_cons, h1]
      · simp [delA, hb, lookup_cons, h1, ih]

theorem lookup_none_iff (m : List (κ × ν)) (k : κ) :
    List.lookup k m = none ↔ k ∉ m.map Prod.fst := by
  induction m with
  | nil => simp
  | cons kv rest ih =>
    obtain ⟨k0, v0⟩ := kv
    by_cases h : k = k0
    · simp [lookup_cons, h]
    · simp [lookup_cons, h, ih]

theorem lookup_isSome_iff (m : List (κ × ν)) (k : κ) :
    (List.lookup k m).isSome ↔ k ∈ m.map Prod.fst := by
  induction m with
  | nil => simp
  | cons kv rest ih =>
    obtain ⟨k0, v0⟩ := kv
    by_cases h : k = k0
    · simp [lookup_cons, h]
    · simp [lookup_cons, h, ih]

theorem lookup_delA_self (m : List (κ × ν)) (k : κ)
    (h : (m.map Prod.fst).Nodup) : List.lookup k (delA m k) = none := by
  rw [lookup_none_iff, map_fst_delA]
  intro hmem
  exact (h.mem_erase_iff.mp hmem).1 rfl

theorem lookup_mem (m : List (κ × ν)) (k : κ) (v : ν)
    (h : List.lookup k m = some v) : (k, v) ∈ m := by
  induction m with
  | nil => simp at h
  | cons kv rest ih =>
    obtain ⟨k0, v0⟩ := kv
    rw [lookup_cons] at h
    by_cases h1 : k = k0
    · simp [h1] at h
      simp [h1, h]
    · simp [h1] at h
      simp [ih h]

end AssocLemmas

namespace Capacity

theorem stepCap_reserve (c : CapacityCalculator) (n : Nat) :
    stepCap c (.reserve n) =
      if c.maxProcesses < c.usedSlots + (n : Int) then c
      else ⟨c.maxProcesses, c.usedSlots + n⟩ := by
  by_cases h : c.maxProcesses < c.usedSlots + (n : Int)
  · simp [stepCap, ReserveSlots, h]
  · simp [stepCap, ReserveSlots, h]

theorem stepCap_release (c : CapacityCalculator) (n : Nat) :
    stepCap c (.release n) =
      if c.usedSlots - (n : Int) < 0 then (⟨c.maxProcesses, 0⟩ : CapacityCalculator)
      else ⟨c.maxProcesses, c.usedSlots - n⟩ := rfl

theorem stepCap_maxProcesses (c : CapacityCalculator) (op : CapOp) :
    (stepCap c op).maxProcesses = c.maxProcesses := by
  cases op with
  | reserve n =>
    rw [stepCap_reserve]
    split <;> rfl
  | release n =>
    rw [stepCap_release]
    split <;> rfl

theorem stepCap_bounds (c : CapacityCalculator) (op : CapOp)
    (h0 : 0 ≤ c.usedSlots) (h1 : c.usedSlots ≤ c.maxProcesses) :
    0 ≤ (stepCap c op).usedSlots ∧ (stepCap c op).usedSlots ≤ c.maxProcesses := by
  cases op with
  | reserve n =>
    rw [stepCap_reserve]
    split
    · exact ⟨h0, h1⟩
    · rename_i h
      constructor
      · exact add_nonneg h0 (Int.natCast_nonneg n)
      · dsimp only
        omega
  | release n =>
    rw [stepCap_release]
    split
    · refine ⟨le_refl 0, le_trans h0 h1⟩
    · dsimp only
      constructor
      · omega
      · omega

theorem execCap_maxProcesses (ops : List CapOp) (c : CapacityCalculator) :
    (execCap c ops).maxProcesses = c.maxProcesses := by
  induction ops generalizing c with
  | nil => rfl
  | cons op rest ih =>
    show (execCap (stepCap c op) rest).maxProcesses = c.maxProcesses
    rw [ih (stepCap c op), stepCap_maxProcesses]

theorem execCap_bounds (ops : List CapOp) (c : CapacityCalculator)
    (h0 : 0 ≤ c.usedSlots) (h1 : c.usedSlots ≤ c.maxProcesses) :
    0 ≤ (execCap c ops).usedSlots
      ∧ (execCap c ops).usedSlots ≤ (execCap c ops).maxProcesses := by
  induction ops generalizing c with
  | nil => exact ⟨h0, h1⟩
  | cons op rest ih =>
    have hs := stepCap_bounds c op h0 h1
    have hm := stepCap_maxProcesses c op
    exact ih (stepCap c op) hs.1 (by rw [hm]; exact hs.2)

/-- C5: for every capacity accountant with bound `max ≥ 0` and every sequence
of `ReserveSlots`/`ReleaseSlots` calls, `0 ≤ used ≤ max` holds after each
call; a reserve increments `used` by `n` exactly when `used + n ≤ max` and
otherwise fails leaving `used` unchanged; a release decrements `used` by `n`
clamping at zero. -/
theorem C5_capacity_accountant (maxP : Int) (hmax : 0 ≤ maxP)
    (ops : List CapOp) :
    (0 ≤ (execCap (NewCapacityCalculator maxP) ops).usedSlots
      ∧ (execCap (NewCapacityCalculator maxP) ops).usedSlots ≤ maxP)
  ∧ (∀ c : CapacityCalculator, ∀ n : Nat,
      (c.usedSlots + n ≤ c.maxProcesses →
        ReserveSlots c n = .ok ⟨c.maxProcesses, c.usedSlots + n⟩)
      ∧ (c.maxProcesses < c.usedSlots + n → stepCap c (.reserve n) = c)
      ∧ (ReleaseSlots c n).usedSlots = max (c.usedSlots - n) 0) := by
  constructor
  · have h := execCap_bounds ops (NewCapacityCalculator maxP) (le_refl 0) hmax
    have hm := execCap_maxProcesses ops (NewCapacityCalculator maxP)
    refine ⟨h.1, ?_⟩
    have h2 := h.2
    rw [hm] at h2
    exact h2
  · intro c n
    refine ⟨?_, ?_, ?_⟩
    · intro h
      simp only [ReserveSlots]
      rw [if_neg (by omega)]
    · intro h
      rw [stepCap_reserve, if_pos h]
    · simp only [ReleaseSlots]
      split
      · rename_i h
        dsimp only
        omega
      · rename_i h
        dsimp only
        omega

end Capacity

/-- Closed instance of C5: a 2-slot accountant driven through a reserve and
an over-release stays within `[0, 2]`. -/
theorem C5_capacity_accountant_witness :
    0 ≤ (Capacity.execCap (Capacity.NewCapacityCalculator 2)
          [Capacity.CapOp.reserve 1, Capacity.CapOp.release 3]).usedSlots
    ∧ (Capacity.execCap (Capacity.NewCapacityCalculator 2)
          [Capacity.CapOp.reserve 1, Capacity.CapOp.release 3]).usedSlots ≤ 2 :=
  (Capacity.C5_capacity_accountant 2 (by decide)
    [Capacity.CapOp.reserve 1, Capacity.CapOp.release 3]).1

theorem mem_ite_nil {α : Type} {c : Prop} [Decidable c] {x : α} {xs : List α} :
    (x ∈ if c then xs else []) ↔ c ∧ x ∈ xs := by
  split
  · rename_i h
    simp [h]
  · rename_i h
    simp [h]

namespace Port

theorem addSet_of_not_mem {s : List Nat} {p : Nat} (h : p ∉ s) :
    addSet s p = s ++ [p] := by
  simp [addSet, h]

/-- C8: a successful `AllocatePort` is idempotent — repeating the call with
the same test id succeeds with the same port and leaves the state unchanged. -/
theorem C8_allocate_port_idempotent (a : Allocator) (tid : String) (p : Nat)
    (a2 : Allocator) (h : AllocatePort a tid = (.ok p, a2)) :
    AllocatePort a2 tid = (.ok p, a2) := by
  rw [AllocatePort] at h
  split at h
  · rename_i port hl
    simp only [Prod.mk.injEq, Except.ok.injEq] at h
    obtain ⟨h1, h2⟩ := h
    subst h1
    subst h2
    rw [AllocatePort, hl]
  · rename_i hl
    split at h
    · rename_i port hfind
      simp only [Prod.mk.injEq, Except.ok.injEq] at h
      obtain ⟨h1, h2⟩ := h
      subst h1
      subst h2
      rw [AllocatePort]
      dsimp only
      rw [lookup_setA_self]
    · simp at h

/-- Closed instance of C8 on a fresh 5-port allocator. -/
theorem C8_allocate_port_idempotent_witness :
    AllocatePort
        (⟨5201, 5205, [5201], [(5201, "t1")], [("t1", 5201)]⟩ : Allocator) "t1"
      = (.ok 5201,
          (⟨5201, 5205, [5201], [(5201, "t1")], [("t1", 5201)]⟩ : Allocator)) :=
  C8_allocate_port_idempotent ⟨5201, 5205, [], [], []⟩ "t1" 5201
    ⟨5201, 5205, [5201], [(5201, "t1")], [("t1", 5201)]⟩ (by rfl)

theorem collectFree_eq_take (l : List Nat) (alloc : List Nat) (c : Nat) :
    collectFree l alloc c = (l.filter (fun p => decide (p ∉ alloc))).take c := by
  induction l generalizing c with
  | nil => cases c <;> simp [collectFree]
  | cons p rest ih =>
    cases c with
    | zero => simp [collectFree]
    | succ k =>
      by_cases h : p ∈ alloc
      · simp [collectFree, h, ih]
      · simp [collectFree, h, ih]

theorem foldl_addSet_append (ps : List Nat) (alloc : List Nat)
    (hfresh : ∀ p ∈ ps, p ∉ alloc) (hnd : ps.Nodup) :
    ps.foldl addSet alloc = alloc ++ ps := by
  induction ps generalizing alloc with
  | nil => simp
  | cons p rest ih =>
    have hp : p ∉ alloc := hfresh p (List.mem_cons_self p rest)
    have hnd2 := List.nodup_cons.mp hnd
    have hfresh2 : ∀ q ∈ rest, q ∉ alloc ++ [p] := by
      intro q hq
      simp only [List.mem_append, List.mem_singleton]
      push_neg
      exact ⟨hfresh q (List.mem_cons_of_mem p hq), fun e => hnd2.1 (e ▸ hq)⟩
    calc (p :: rest).foldl addSet alloc
        = rest.foldl addSet (addSet alloc p) := rfl
      _ = rest.foldl addSet (alloc ++ [p]) := by rw [addSet_of_not_mem hp]
      _ = (alloc ++ [p]) ++ rest := ih (alloc ++ [p]) hfresh2 hnd2.2
      _ = alloc ++ p :: rest := by simp

theorem freePorts_pairwise (a : Allocator) :
    (freePorts a).Pairwise (· < ·) :=
  List.Pairwise.sublist (List.filter_sublist _)
    (List.pairwise_lt_range' a.startPort (a.endPort + 1 - a.startPort))

/-- C6: `AllocatePorts` either returns exactly the `count` lowest free ports
of the range (marking them allocated and touching nothing else), or fails
with the state entirely unchanged because fewer than `count` ports are free. -/
theorem C6_allocate_ports_atomic (a : Allocator) (c : Nat) :
    (∀ ps a2, AllocatePorts a c = (.ok ps, a2) →
      ps = (freePorts a).take c ∧ ps.length = c
      ∧ a2 = ⟨a.startPort, a.endPort, a.allocatedPorts ++ ps,
          a.portToTestID, a.testIDToPort⟩
      ∧ ps.Pairwise (· < ·)
      ∧ ∀ q ∈ freePorts a, q ∉ ps → ∀ p ∈ ps, p < q)
  ∧ (∀ e a2, AllocatePorts a c = (.error e, a2) →
      a2 = a ∧ (freePorts a).length < c) := by
  have hpw := freePorts_pairwise a
  constructor
  · intro ps a2 h
    rw [AllocatePorts] at h
    simp only [collectFree_eq_take] at h
    split at h
    · simp at h
    · rename_i hlen
      simp only [Prod.mk.injEq, Except.ok.injEq] at h
      obtain ⟨h1, h2⟩ := h
      rw [List.length_take] at hlen
      have hlenF : ¬ (freePorts a).length < c := by
        have he : freePorts a
            = (portScan a).filter (fun p => decide (p ∉ a.allocatedPorts)) := rfl
        rw [he]
        omega
      have htake : ps = (freePorts a).take c := h1.symm
      have htakelen : ps.length = c := by
        rw [htake, List.length_take]
        have he : freePorts a
            = (portScan a).filter (fun p => decide (p ∉ a.allocatedPorts)) := rfl
        rw [he]
        omega
      have hpsw : ps.Pairwise (· < ·) := by
        rw [htake]
        exact List.Pairwise.sublist (List.take_sublist c (freePorts a)) hpw
      have hfresh : ∀ p ∈ ps, p ∉ a.allocatedPorts := by
        intro p hp
        have hmemf : p ∈ freePorts a :=
          (List.take_sublist c (freePorts a)).subset (htake ▸ hp)
        have := List.of_mem_filter hmemf
        simpa using this
      have hmark : ps.foldl addSet a.allocatedPorts = a.allocatedPorts ++ ps :=
        foldl_addSet_append ps a.allocatedPorts hfresh
          (List.Pairwise.imp (fun hlt => ne_of_lt hlt) hpsw)
      refine ⟨htake, htakelen, ?_, hpsw, ?_⟩
      · rw [← h2]
        have hps : List.take c (List.filter
            (fun p => decide (p ∉ a.allocatedPorts)) (portScan a)) = ps :=
          htake.symm
        rw [hps, hmark]
      · intro q hq hqps p hp
        have hsplit := List.take_append_drop c (freePorts a)
        have hqd : q ∈ (freePorts a).drop c := by
          rw [← hsplit] at hq
          rcases List.mem_append.mp hq with hq1 | hq2
          · exact absurd (htake ▸ hq1) hqps
          · exact hq2
        have := (List.pairwise_append.mp (hsplit ▸ hpw)).2.2
        exact this p (htake ▸ hp) q hqd
  · intro e a2 h
    rw [AllocatePorts] at h
    simp only [collectFree_eq_take] at h
    split at h
    · rename_i hlen
      simp only [Prod.mk.injEq, Except.error.injEq] at h
      rw [List.length_take] at hlen
      refine ⟨h.2.symm, ?_⟩
      rw [freePorts]
      omega
    · simp at h

theorem consistent_reset (s e : Nat) :
    Consistent ⟨s, e, [], [], []⟩ := by
  refine ⟨List.nodup_nil, List.nodup_nil, List.nodup_nil, ?_, ?_, ?_⟩
  · intro p
    simp
  · intro p tid h
    simp at h
  · intro tid p h
    simp at h

/-- Removing a mutually-mapped (port, test-id) pair preserves consistency. -/
theorem consistent_remove (a : Allocator) (port : Nat) (tid : String)
    (h : Consistent a)
    (hp2t : List.lookup port a.portToTestID = some tid)
    (ht2p : List.lookup tid a.testIDToPort = some port) :
    Consistent ⟨a.startPort, a.endPort, a.allocatedPorts.erase port,
      delA a.portToTestID port, delA a.testIDToPort tid⟩ := by
  refine ⟨h.nodupAlloc.erase port, ?_, ?_, ?_, ?_, ?_⟩
  · rw [map_fst_delA]
    exact h.nodupP2T.erase port
  · rw [map_fst_delA]
    exact h.nodupT2P.erase tid
  · intro p
    by_cases hp : p = port
    · subst hp
      constructor
      · intro hmem
        exact absurd rfl (h.nodupAlloc.mem_erase_iff.mp hmem).1
      · intro hs
        rw [lookup_delA_self _ _ h.nodupP2T] at hs
        simp at hs
    · constructor
      · intro hmem
        have hm2 := (h.nodupAlloc.mem_erase_iff.mp hmem).2
        rw [lookup_delA_ne _ _ _ hp]
        exact (h.allocIff p).mp hm2
      · intro hs
        rw [lookup_delA_ne _ _ _ hp] at hs
        exact h.nodupAlloc.mem_erase_iff.mpr ⟨hp, (h.allocIff p).mpr hs⟩
  · intro p t hl
    by_cases hp : p = port
    · subst hp
      rw [lookup_delA_self _ _ h.nodupP2T] at hl
      cases hl
    · rw [lookup_delA_ne _ _ _ hp] at hl
      have hold := h.p2t_t2p p t hl
      have htne : t ≠ tid := by
        rintro rfl
        rw [hold] at ht2p
        simp at ht2p
        exact hp ht2p
      rw [lookup_delA_ne _ _ _ htne]
      exact hold
  · intro t p hl
    by_cases ht : t = tid
    · subst ht
      rw [lookup_delA_self _ _ h.nodupT2P] at hl
      cases hl
    · rw [lookup_delA_ne _ _ _ ht] at hl
      have hold := h.t2p_p2t t p hl
      have hpne : p ≠ port := by
        rintro rfl
        rw [hold] at hp2t
        simp at hp2t
        exact ht hp2t
      rw [lookup_delA_ne _ _ _ hpne]
      exact hold

theorem consistent_allocatePort (a : Allocator) (tid : String)
    (h : Consistent a) : Consistent (AllocatePort a tid).2 := by
  rw [AllocatePort]
  split
  · exact h
  · rename_i hnone
    split
    · rename_i port hfind
      have hfree : port ∉ a.allocatedPorts := by
        have := List.find?_some hfind
        simpa using this
      have hP2Tnone : List.lookup port a.portToTestID = none := by
        cases hc : List.lookup port a.portToTestID with
        | none => rfl
        | some t =>
          exact absurd ((h.allocIff port).mpr (by simp [hc])) hfree
      have hT2Pnone : List.lookup tid a.testIDToPort = none := hnone
      have hsetP2T : setA a.portToTestID port tid
          = a.portToTestID ++ [(port, tid)] :=
        setA_of_lookup_none _ _ _ hP2Tnone
      have hsetT2P : setA a.testIDToPort tid port
          = a.testIDToPort ++ [(tid, port)] :=
        setA_of_lookup_none _ _ _ hT2Pnone
      have hkeyP : port ∉ a.portToTestID.map Prod.fst :=
        (lookup_none_iff _ _).mp hP2Tnone
      have hkeyT : tid ∉ a.testIDToPort.map Prod.fst :=
        (lookup_none_iff _ _).mp hT2Pnone
      dsimp only
      refine ⟨?_, ?_, ?_, ?_, ?_, ?_⟩
      · rw [addSet_of_not_mem hfree]
        simp [List.nodup_append, h.nodupAlloc, hfree]
      · rw [hsetP2T]
        simp only [List.map_append]
        simp [List.nodup_append, h.nodupP2T, hkeyP]
      · rw [hsetT2P]
        simp only [List.map_append]
        simp [List.nodup_append, h.nodupT2P, hkeyT]
      · intro p
        rw [addSet_of_not_mem hfree]
        by_cases hp : p = port
        · subst hp
          simp [lookup_setA_self]
        · rw [lookup_setA_ne _ _ _ _ hp]
          simp only [List.mem_append, List.mem_singleton]
          constructor
          · intro hm
            rcases hm with hm | hm
            · exact (h.allocIff p).mp hm
            · exact absurd hm hp
          · intro hs
            exact Or.inl ((h.allocIff p).mpr hs)
      · intro p t hl
        by_cases hp : p = port
        · subst hp
          rw [lookup_setA_self] at hl
          cases hl
          exact lookup_setA_self _ _ _
        · rw [lookup_setA_ne _ _ _ _ hp] at hl
          have hold := h.p2t_t2p p t hl
          have htne : t ≠ tid := by
            rintro rfl
            rw [hold] at hT2Pnone
            cases hT2Pnone
          rw [lookup_setA_ne _ _ _ _ htne]
          exact hold
      · intro t p hl
        by_cases ht : t = tid
        · subst ht
          rw [lookup_setA_self] at hl
          cases hl
          exact lookup_setA_self _ _ _
        · rw [lookup_setA_ne _ _ _ _ ht] at hl
          have hold := h.t2p_p2t t p hl
          have hpne : p ≠ port := by
            rintro rfl
            rw [hold] at hP2Tnone
            cases hP2Tnone
          rw [lookup_setA_ne _ _ _ _ hpne]
          exact hold
    · exact h

theorem consistent_releasePort (a : Allocator) (tid : String)
    (h : Consistent a) : Consistent (ReleasePort a tid).2 := by
  rw [ReleasePort]
  split
  · exact h
  · rename_i port hsome
    exact consistent_remove a port tid h (h.t2p_p2t tid port hsome) hsome

theorem consistent_releasePortByNumber (a : Allocator) (port : Nat)
    (h : Consistent a) : Consistent (ReleasePortByNumber a port).2 := by
  rw [ReleasePortByNumber]
  split
  · rename_i hmem
    obtain ⟨t0, ht0⟩ : ∃ t, List.lookup port a.portToTestID = some t := by
      have hs := (h.allocIff port).mp hmem
      cases hc : List.lookup port a.portToTestID with
      | none => rw [hc] at hs; simp at hs
      | some t => exact ⟨t, rfl⟩
    have ht2p : List.lookup t0 a.testIDToPort = some port :=
      h.p2t_t2p port t0 ht0
    simp only [ht0, Option.getD_some]
    exact consistent_remove a port t0 h ht0 ht2p
  · exact h

theorem consistent_stepAlloc (a : Allocator) (op : AllocOp)
    (h : Consistent a) (hop : ∀ c : Nat, op ≠ .allocN c) :
    Consistent (stepAlloc a op) := by
  cases op with
  | alloc tid => exact consistent_allocatePort a tid h
  | allocN c => exact absurd rfl (hop c)
  | release tid => exact consistent_releasePort a tid h
  | releaseByNum p => exact consistent_releasePortByNumber a p h
  | releaseAll => exact consistent_reset a.startPort a.endPort

theorem consistent_execAlloc (ops : List AllocOp) (a : Allocator)
    (h : Consistent a) (hops : noAllocN ops) :
    Consistent (execAlloc a ops) := by
  induction ops generalizing a with
  | nil => exact h
  | cons op rest ih =>
    have hop : ∀ c : Nat, op ≠ .allocN c := by
      intro c he
      exact hops c (by rw [← he]; exact List.mem_cons_self op rest)
    have hrest : noAllocN rest := by
      intro c hc
      exact hops c (List.mem_cons_of_mem op hc)
    exact ih (stepAlloc a op) (consistent_stepAlloc a op h hop) hrest

/-- C2 counterexample: on a fresh `5201–5202` allocator, a single
`AllocatePorts 1` call marks port 5201 allocated with no test-id mapping, so
"allocated iff mapped" fails as stated. -/
theorem C2_counterexample :
    5201 ∈ (execAlloc ⟨5201, 5202, [], [], []⟩
        [AllocOp.allocN 1]).allocatedPorts
    ∧ ¬ ∃ tid, List.lookup 5201 (execAlloc ⟨5201, 5202, [], [], []⟩
          [AllocOp.allocN 1]).portToTestID = some tid
        ∧ List.lookup tid (execAlloc ⟨5201, 5202, [], [], []⟩
            [AllocOp.allocN 1]).testIDToPort = some 5201 := by
  constructor
  · decide
  · rintro ⟨tid, h1, h2⟩
    have hnil : (execAlloc ⟨5201, 5202, [], [], []⟩
        [AllocOp.allocN 1]).portToTestID = [] := by decide
    rw [hnil] at h1
    simp at h1

/-- C2 (amended): the count identity `allocated + available = capacity` holds
unconditionally, and the "allocated iff test-id-mapped" equivalence holds for
every sequence of allocator calls that contains no `AllocatePorts` call
(which marks ports allocated without creating test-id mappings). -/
theorem C2_allocator_invariants (s e : Nat) (a0 : Allocator)
    (h0 : NewAllocator s e = .ok a0) (ops : List AllocOp)
    (hops : noAllocN ops) :
    (∀ b : Allocator,
      GetAllocatedCount b + GetAvailableCount b = GetCapacity b)
  ∧ (∀ p : Nat, p ∈ (execAlloc a0 ops).allocatedPorts ↔
      ∃ tid, List.lookup p (execAlloc a0 ops).portToTestID = some tid
        ∧ List.lookup tid (execAlloc a0 ops).testIDToPort = some p) := by
  constructor
  · intro b
    rw [GetAllocatedCount, GetAvailableCount]
    ring
  · have ha0 : a0 = ⟨s, e, [], [], []⟩ := by
      rw [NewAllocator] at h0
      split at h0
      · cases h0
      · split at h0
        · cases h0
        · split at h0
          · cases h0
          · simp only [Except.ok.injEq] at h0
            exact h0.symm
    have hcons := consistent_execAlloc ops a0
       (ha0 ▸ consistent_reset s e) hops
    intro p
    constructor
    · intro hmem
      have hs := (hcons.allocIff p).mp hmem
      cases hc : List.lookup p (execAlloc a0 ops).portToTestID with
      | none => rw [hc] at hs; simp at hs
      | some t => exact ⟨t, rfl, hcons.p2t_t2p p t hc⟩
    · rintro ⟨tid, h1, h2⟩
      exact (hcons.allocIff p).mpr (by simp [h1])

/-- Closed instance of C2 (amended) after an allocate / release-by-number /
allocate sequence, read off at port 5201. -/
theorem C2_allocator_invariants_witness :
    5201 ∈ (execAlloc ⟨5201, 5202, [], [], []⟩
        [AllocOp.alloc "t1", AllocOp.releaseByNum 5201,
          AllocOp.alloc "t2"]).allocatedPorts ↔
      ∃ tid, List.lookup 5201 (execAlloc ⟨5201, 5202, [], [], []⟩
          [AllocOp.alloc "t1", AllocOp.releaseByNum 5201,
            AllocOp.alloc "t2"]).portToTestID = some tid
        ∧ List.lookup tid (execAlloc ⟨5201, 5202, [], [], []⟩
            [AllocOp.alloc "t1", AllocOp.releaseByNum 5201,
              AllocOp.alloc "t2"]).testIDToPort = some 5201 :=
  (C2_allocator_invariants 5201 5202 ⟨5201, 5202, [], [], []⟩ (by rfl)
    [AllocOp.alloc "t1", AllocOp.releaseByNum 5201, AllocOp.alloc "t2"]
    (by intro c hc; simp at hc)).2 5201

/-- Closed instance of C6 (spec scenario E2): a fresh `5201–5202` allocator
refuses `AllocatePorts 3` and is left unchanged. -/
theorem C6_allocate_ports_atomic_witness :
    (⟨5201, 5202, [], [], []⟩ : Allocator)
        = (⟨5201, 5202, [], [], []⟩ : Allocator)
    ∧ (freePorts ⟨5201, 5202, [], [], []⟩).length < 3 :=
  (C6_allocate_ports_atomic ⟨5201, 5202, [], [], []⟩ 3).2
    ("insufficient ports: need 3, found 2") ⟨5201, 5202, [], [], []⟩ (by rfl)

end Port

namespace Collector

theorem countStatus_nil (s : String) : countStatus s [] = 0 := rfl

theorem countStatus_nonneg (s : String) (m : List (String × TestResult)) :
    0 ≤ countStatus s m :=
  Int.natCast_nonneg _

theorem countStatus_cons (s : String) (kv : String × TestResult)
    (m : List (String × TestResult)) :
    countStatus s (kv :: m)
      = (if kv.2.Status = s then 1 else 0) + countStatus s m := by
  by_cases h : kv.2.Status = s
  · simp [countStatus, List.filter_cons, h, add_comm]
  · simp [countStatus, List.filter_cons, h]

theorem countStatus_pair_cons (s k : String) (r : TestResult)
    (m : List (String × TestResult)) :
    countStatus s ((k, r) :: m)
      = (if r.Status = s then 1 else 0) + countStatus s m :=
  countStatus_cons s (k, r) m

theorem countStatus_append_single (s : String)
    (m : List (String × TestResult)) (kv : String × TestResult) :
    countStatus s (m ++ [kv])
      = countStatus s m + (if kv.2.Status = s then 1 else 0) := by
  induction m with
  | nil => simp [countStatus_cons, countStatus_nil]
  | cons kv0 rest ih =>
    rw [List.cons_append, countStatus_cons, countStatus_cons, ih]
    ring

theorem countStatus_setA_le (s : String) (m : List (String × TestResult))
    (k : String) (r : TestResult) :
    countStatus s (setA m k r)
      ≤ countStatus s m + (if r.Status = s then 1 else 0) := by
  induction m with
  | nil =>
    rw [show setA ([] : List (String × TestResult)) k r = [(k, r)] from rfl,
      countStatus_pair_cons, countStatus_nil]
    omega
  | cons kv rest ih =>
    obtain ⟨k0, v0⟩ := kv
    by_cases h : k0 = k
    · rw [setA_cons_eq v0 r rest h, countStatus_pair_cons, countStatus_pair_cons]
      have := countStatus_nonneg s rest
      split <;> split <;> omega
    · rw [setA_cons_ne v0 r rest h, countStatus_pair_cons, countStatus_pair_cons]
      omega

theorem countStatus_delA (s : String) (m : List (String × TestResult))
    (k : String) (r : TestResult) (h : List.lookup k m = some r) :
    countStatus s (delA m k)
      = countStatus s m - (if r.Status = s then 1 else 0) := by
  induction m with
  | nil => simp at h
  | cons kv rest ih =>
    obtain ⟨k0, v0⟩ := kv
    rw [lookup_cons] at h
    by_cases hk : k = k0
    · rw [if_pos hk] at h
      simp only [Option.some.injEq] at h
      subst h
      rw [delA_cons_eq v0 rest hk.symm, countStatus_pair_cons]
      omega
    · rw [if_neg hk] at h
      rw [delA_cons_ne v0 rest (fun e => hk (Eq.symm e)), countStatus_pair_cons,
        countStatus_pair_cons, ih h]
      omega

theorem mem_delA {m : List (String × TestResult)} {k : String}
    {kv : String × TestResult} (h : kv ∈ delA m k) : kv ∈ m := by
  induction m with
  | nil => simp [delA] at h
  | cons kv0 rest ih =>
    obtain ⟨k0, v0⟩ := kv0
    by_cases hb : (k0 == k) = true
    · rw [delA, if_pos hb] at h
      exact List.mem_cons_of_mem _ h
    · rw [delA, if_neg hb] at h
      rcases List.mem_cons.mp h with h1 | h1
      · exact h1 ▸ List.mem_cons_self _ _
      · exact List.mem_cons_of_mem _ (ih h1)

theorem count_partition (m : List (String × TestResult))
    (h : ∀ kv ∈ m, kv.2.Status = "completed" ∨ kv.2.Status = "failed") :
    countStatus "completed" m + countStatus "failed" m = (m.length : Int) := by
  induction m with
  | nil => simp [countStatus_nil]
  | cons kv rest ih =>
    have hh := h kv (List.mem_cons_self kv rest)
    have ht := ih (fun x hx => h x (List.mem_cons_of_mem _ hx))
    rw [countStatus_cons, countStatus_cons, List.length_cons]
    rcases hh with h1 | h1
    · rw [if_pos h1, if_neg (by rw [h1]; decide)]
      push_cast
      omega
    · rw [if_neg (by rw [h1]; decide), if_pos h1]
      push_cast
      omega

theorem clearFound_nonneg (c : Collector) (tid : String)
    (h1 : countStatus "completed" c.results ≤ c.completed)
    (h2 : countStatus "failed" c.results ≤ c.failed) :
    countStatus "completed" (clearFound c tid).results
        ≤ (clearFound c tid).completed
    ∧ countStatus "failed" (clearFound c tid).results
        ≤ (clearFound c tid).failed := by
  rw [clearFound]
  cases hl : List.lookup tid c.results with
  | none => exact ⟨h1, h2⟩
  | some r =>
    dsimp only
    have hc := countStatus_delA "completed" c.results tid r hl
    have hf := countStatus_delA "failed" c.results tid r hl
    constructor
    · rw [hc]
      split <;> omega
    · rw [hf]
      by_cases hcm : r.Status = "completed"
      · rw [if_pos hcm, if_neg (by rw [hcm]; decide)]
        omega
      · rw [if_neg hcm]
        split <;> omega

theorem clearResults_nonneg (tids : List String) (c : Collector)
    (h1 : countStatus "completed" c.results ≤ c.completed)
    (h2 : countStatus "failed" c.results ≤ c.failed) :
    countStatus "completed" (ClearResults c tids).results
        ≤ (ClearResults c tids).completed
    ∧ countStatus "failed" (ClearResults c tids).results
        ≤ (ClearResults c tids).failed := by
  induction tids generalizing c with
  | nil => exact ⟨h1, h2⟩
  | cons tid rest ih =>
    have hs := clearFound_nonneg c tid h1 h2
    exact ih (clearFound c tid) hs.1 hs.2

theorem stepCol_clearOne (c : Collector) (tid : String) :
    stepCol c (.clearOne tid) = clearFound c tid := by
  rw [stepCol, ClearResult]
  cases hl : List.lookup tid c.results with
  | none => rw [clearFound, hl]
  | some r => rfl

theorem stepCol_nonneg (c : Collector) (op : ColOp)
    (h1 : countStatus "completed" c.results ≤ c.completed)
    (h2 : countStatus "failed" c.results ≤ c.failed) :
    countStatus "completed" (stepCol c op).results ≤ (stepCol c op).completed
    ∧ countStatus "failed" (stepCol c op).results ≤ (stepCol c op).failed := by
  cases op with
  | store tid success json errmsg ec =>
    rw [stepCol, StoreIperfResult, StoreResult]
    by_cases ht : tid = ""
    · rw [if_pos (by simpa using ht)]
      exact ⟨h1, h2⟩
    · rw [if_neg (by simpa using ht)]
      dsimp only
      cases success with
      | true =>
        have hle := countStatus_setA_le "completed" c.results tid
          ⟨tid, "completed", json, errmsg, ec⟩
        have hlf := countStatus_setA_le "failed" c.results tid
          ⟨tid, "completed", json, errmsg, ec⟩
        dsimp only at hle hlf
        rw [if_pos rfl] at hle
        rw [if_neg (by decide)] at hlf
        simp only [eq_self_iff_true, if_true]
        constructor
        · omega
        · omega
      | false =>
        have hfc : ¬ ("failed" : String) = "completed" := by decide
        have hle := countStatus_setA_le "completed" c.results tid
          ⟨tid, "failed", json, errmsg, ec⟩
        have hlf := countStatus_setA_le "failed" c.results tid
          ⟨tid, "failed", json, errmsg, ec⟩
        dsimp only at hle hlf
        rw [if_neg hfc] at hle
        rw [if_pos rfl] at hlf
        simp only [Bool.false_eq_true, if_false]
        rw [if_neg hfc, if_neg hfc]
        simp only [if_true]
        constructor
        · omega
        · omega
  | clearOne tid =>
    rw [stepCol_clearOne]
    exact clearFound_nonneg c tid h1 h2
  | clearMany tids =>
    rw [stepCol]
    exact clearResults_nonneg tids c h1 h2
  | clearAll =>
    rw [stepCol, ClearAll]
    exact ⟨le_refl 0, le_refl 0⟩

theorem execCol_nonneg (ops : List ColOp) (c : Collector)
    (h1 : countStatus "completed" c.results ≤ c.completed)
    (h2 : countStatus "failed" c.results ≤ c.failed) :
    countStatus "completed" (execCol c ops).results ≤ (execCol c ops).completed
    ∧ countStatus "failed" (execCol c ops).results ≤ (execCol c ops).failed := by
  induction ops generalizing c with
  | nil => exact ⟨h1, h2⟩
  | cons op rest ih =>
    have hs := stepCol_nonneg c op h1 h2
    exact ih (stepCol c op) hs.1 hs.2

theorem countStatus_append_pair (s k : String) (r : TestResult)
    (m : List (String × TestResult)) :
    countStatus s (m ++ [(k, r)])
      = countStatus s m + (if r.Status = s then 1 else 0) :=
  countStatus_append_single s m (k, r)

theorem storeResult_exact (c : Collector) (r : TestResult)
    (hgood : r.Status = "completed" ∨ r.Status = "failed")
    (hl : List.lookup r.TestID c.results = none)
    (hA : ∀ kv ∈ c.results, kv.2.Status = "completed" ∨ kv.2.Status = "failed")
    (hB : c.completed = countStatus "completed" c.results)
    (hC : c.failed = countStatus "failed" c.results) :
    ∀ c2, StoreResult c r = .ok c2 →
      (∀ kv ∈ c2.results, kv.2.Status = "completed" ∨ kv.2.Status = "failed")
      ∧ c2.completed = countStatus "completed" c2.results
      ∧ c2.failed = countStatus "failed" c2.results := by
  intro c2 h
  rw [StoreResult] at h
  split at h
  · cases h
  · simp only [Except.ok.injEq] at h
    subst h
    dsimp only
    rw [setA_of_lookup_none c.results r.TestID r hl]
    refine ⟨?_, ?_, ?_⟩
    · intro kv hkv
      rcases List.mem_append.mp hkv with hm | hm
      · exact hA kv hm
      · have : kv = (r.TestID, r) := List.mem_singleton.mp hm
        rw [this]
        exact hgood
    · rw [countStatus_append_pair]
      by_cases hs : r.Status = "completed"
      · rw [if_pos hs, if_pos hs, hB]
      · rw [if_neg hs, if_neg hs, hB]
        ring
    · rw [countStatus_append_pair]
      by_cases hs : r.Status = "completed"
      · rw [if_pos hs, if_neg (by rw [hs]; decide), hC]
        ring
      · by_cases hf : r.Status = "failed"
        · rw [if_neg hs, if_pos hf, if_pos hf, hC]
        · rw [if_neg hs, if_neg hf, if_neg hf, hC]
          ring

theorem clearFound_exact (c : Collector) (tid : String)
    (hA : ∀ kv ∈ c.results, kv.2.Status = "completed" ∨ kv.2.Status = "failed")
    (hB : c.completed = countStatus "completed" c.results)
    (hC : c.failed = countStatus "failed" c.results) :
    (∀ kv ∈ (clearFound c tid).results,
      kv.2.Status = "completed" ∨ kv.2.Status = "failed")
    ∧ (clearFound c tid).completed
        = countStatus "completed" (clearFound c tid).results
    ∧ (clearFound c tid).failed
        = countStatus "failed" (clearFound c tid).results := by
  rw [clearFound]
  cases hl : List.lookup tid c.results with
  | none => exact ⟨hA, hB, hC⟩
  | some r =>
    dsimp only
    have hgood : r.Status = "completed" ∨ r.Status = "failed" :=
      hA (tid, r) (lookup_mem _ _ _ hl)
    have hcc := countStatus_delA "completed" c.results tid r hl
    have hff := countStatus_delA "failed" c.results tid r hl
    refine ⟨?_, ?_, ?_⟩
    · intro kv hkv
      exact hA kv (mem_delA hkv)
    · rw [hcc]
      by_cases hs : r.Status = "completed"
      · rw [if_pos hs, if_pos hs, hB]
      · rw [if_neg hs, if_neg hs, hB]
        ring
    · rw [hff]
      by_cases hs : r.Status = "completed"
      · rw [if_pos hs, if_neg (by rw [hs]; decide), hC]
        ring
      · by_cases hf2 : r.Status = "failed"
        · rw [if_neg hs, if_pos hf2, if_pos hf2, hC]
        · rw [if_neg hs, if_neg hf2, if_neg hf2, hC]
          ring

theorem clearResults_exact (tids : List String) (c : Collector)
    (hA : ∀ kv ∈ c.results, kv.2.Status = "completed" ∨ kv.2.Status = "failed")
    (hB : c.completed = countStatus "completed" c.results)
    (hC : c.failed = countStatus "failed" c.results) :
    (∀ kv ∈ (ClearResults c tids).results,
      kv.2.Status = "completed" ∨ kv.2.Status = "failed")
    ∧ (ClearResults c tids).completed
        = countStatus "completed" (ClearResults c tids).results
    ∧ (ClearResults c tids).failed
        = countStatus "failed" (ClearResults c tids).results := by
  induction tids generalizing c with
  | nil => exact ⟨hA, hB, hC⟩
  | cons tid rest ih =>
    have hs := clearFound_exact c tid hA hB hC
    exact ih (clearFound c tid) hs.1 hs.2.1 hs.2.2

theorem execCol_exact (ops : List ColOp) (c : Collector)
    (hA : ∀ kv ∈ c.results, kv.2.Status = "completed" ∨ kv.2.Status = "failed")
    (hB : c.completed = countStatus "completed" c.results)
    (hC : c.failed = countStatus "failed" c.results)
    (hno : noOverwrite c ops = true) :
    (∀ kv ∈ (execCol c ops).results,
      kv.2.Status = "completed" ∨ kv.2.Status = "failed")
    ∧ (execCol c ops).completed
        = countStatus "completed" (execCol c ops).results
    ∧ (execCol c ops).failed
        = countStatus "failed" (execCol c ops).results := by
  induction ops generalizing c with
  | nil => exact ⟨hA, hB, hC⟩
  | cons op rest ih =>
    cases op with
    | store tid success json errmsg ec =>
      rw [noOverwrite] at hno
      simp only [storeTargetsFresh, Bool.and_eq_true,
        Option.isNone_iff_eq_none] at hno
      obtain ⟨hop, hrest⟩ := hno
      have hstep : (∀ kv ∈ (stepCol c (.store tid success json errmsg ec)).results,
          kv.2.Status = "completed" ∨ kv.2.Status = "failed")
        ∧ (stepCol c (.store tid success json errmsg ec)).completed
            = countStatus "completed"
                (stepCol c (.store tid success json errmsg ec)).results
        ∧ (stepCol c (.store tid success json errmsg ec)).failed
            = countStatus "failed"
                (stepCol c (.store tid success json errmsg ec)).results := by
        rw [stepCol]
        cases hsr : StoreIperfResult c tid success json errmsg ec with
        | ok c2 =>
          exact storeResult_exact c
            ⟨tid, if success then "completed" else "failed", json, errmsg, ec⟩
            (by cases success <;> simp) hop hA hB hC c2 hsr
        | error e => exact ⟨hA, hB, hC⟩
      exact ih _ hstep.1 hstep.2.1 hstep.2.2 hrest
    | clearOne tid =>
      rw [noOverwrite] at hno
      simp only [storeTargetsFresh, Bool.true_and] at hno
      have hstep := clearFound_exact c tid hA hB hC
      rw [show execCol c (ColOp.clearOne tid :: rest)
          = execCol (stepCol c (.clearOne tid)) rest from rfl]
      rw [stepCol_clearOne] at hno ⊢
      exact ih _ hstep.1 hstep.2.1 hstep.2.2 hno
    | clearMany tids =>
      rw [noOverwrite] at hno
      simp only [storeTargetsFresh, Bool.true_and] at hno
      have hstep := clearResults_exact tids c hA hB hC
      exact ih _ hstep.1 hstep.2.1 hstep.2.2 hno
    | clearAll =>
      rw [noOverwrite] at hno
      simp only [storeTargetsFresh, Bool.true_and] at hno
      have hstep : (∀ kv ∈ (stepCol c .clearAll).results,
          kv.2.Status = "completed" ∨ kv.2.Status = "failed")
        ∧ (stepCol c .clearAll).completed
            = countStatus "completed" (stepCol c .clearAll).results
        ∧ (stepCol c .clearAll).failed
            = countStatus "failed" (stepCol c .clearAll).results := by
        rw [stepCol, ClearAll]
        exact ⟨by intro kv hkv; simp at hkv, rfl, rfl⟩
      exact ih _ hstep.1 hstep.2.1 hstep.2.2 hno

/-- C10 (amended): in the daemon result collector, both outcome counters stay
non-negative after any sequence of store/clear operations; and whenever no
store targets a test id that already has a result, `GetCompletedCount +
GetFailedCount = GetCount`.  (A store over an existing id inflates the
counters without growing the map, which is the counterexample.) -/
theorem C10_collector_counters (ops : List ColOp) :
    (0 ≤ GetCompletedCount (execCol NewCollector ops)
      ∧ 0 ≤ GetFailedCount (execCol NewCollector ops))
  ∧ (noOverwrite NewCollector ops = true →
      GetCompletedCount (execCol NewCollector ops)
        + GetFailedCount (execCol NewCollector ops)
        = GetCount (execCol NewCollector ops)) := by
  constructor
  · have h := execCol_nonneg ops NewCollector (le_refl 0) (le_refl 0)
    have h1 := countStatus_nonneg "completed" (execCol NewCollector ops).results
    have h2 := countStatus_nonneg "failed" (execCol NewCollector ops).results
    exact ⟨le_trans h1 h.1, le_trans h2 h.2⟩
  · intro hno
    have h := execCol_exact ops NewCollector
      (by intro kv hkv; simp [NewCollector] at hkv) rfl rfl hno
    rw [GetCompletedCount, GetFailedCount, GetCount, h.2.1, h.2.2]
    exact count_partition _ h.1

/-- C10 counterexample: storing a result twice for the same test id leaves
`completed + failed = 2` while only one result is stored. -/
theorem C10_counterexample :
    ¬ (GetCompletedCount (execCol NewCollector
          [ColOp.store "t" true "" "" 0, ColOp.store "t" true "" "" 0])
        + GetFailedCount (execCol NewCollector
          [ColOp.store "t" true "" "" 0, ColOp.store "t" true "" "" 0])
        = GetCount (execCol NewCollector
          [ColOp.store "t" true "" "" 0, ColOp.store "t" true "" "" 0])) := by
  decide

/-- Closed instance of C10 (amended) on a store / store / clear sequence with
distinct ids. -/
theorem C10_collector_counters_witness :
    GetCompletedCount (execCol NewCollector
        [ColOp.store "a" true "" "" 0, ColOp.store "b" false "x" "boom" 1,
          ColOp.clearOne "a"])
      + GetFailedCount (execCol NewCollector
        [ColOp.store "a" true "" "" 0, ColOp.store "b" false "x" "boom" 1,
          ColOp.clearOne "a"])
      = GetCount (execCol NewCollector
        [ColOp.store "a" true "" "" 0, ColOp.store "b" false "x" "boom" 1,
          ColOp.clearOne "a"]) :=
  (C10_collector_counters
    [ColOp.store "a" true "" "" 0, ColOp.store "b" false "x" "boom" 1,
      ColOp.clearOne "a"]).2 (by decide)

end Collector

theorem mem_flag_pair {x k v : String} :
    (x ∈ if v = "" then [k] else [k, v]) ↔ (x = k ∨ (v ≠ "" ∧ x = v)) := by
  split <;> simp_all

namespace Models

/-- C9: `ToCommandArgs` emits `-u` exactly for UDP profiles, and for UDP
profiles the TCP-only flags `-C`, `-M`, `-N` are never emitted, whatever the
`CongestionControl`, `MSS` and `NoDelay` settings are. -/
theorem C9_argv_udp_tcp_flags (p : TestProfile) (hc : CleanStrings p) :
    ("-u" ∈ ToCommandArgs p ↔ p.Protocol = ProtocolUDP)
  ∧ (p.Protocol = ProtocolUDP →
      "-C" ∉ ToCommandArgs p ∧ "-M" ∉ ToCommandArgs p ∧ "-N" ∉ ToCommandArgs p) := by
  have hu := hc "-u" (by simp [optTokens])
  have hC := hc "-C" (by simp [optTokens])
  have hM := hc "-M" (by simp [optTokens])
  have hN := hc "-N" (by simp [optTokens])
  constructor
  · constructor
    · intro hmem
      by_contra hproto
      obtain ⟨u1, u2, u3, u4, u5, u6, u7, u8, u9, u10⟩ := hu
      simp [ToCommandArgs, mem_ite_nil, mem_flag_pair, hproto,
        u1, u2, u3, u4, u5, u6, u7, u8, u9] at hmem
      obtain ⟨k, v, hkv, hin⟩ := hmem
      have hkv2 := u10 (k, v) hkv
      rcases hin with h | h
      · exact hkv2.1 h
      · exact hkv2.2 h.2
    · intro hproto
      simp [ToCommandArgs, hproto]
  · intro hproto
    refine ⟨?_, ?_, ?_⟩
    · intro hmem
      obtain ⟨u1, u2, u3, u4, u5, u6, u7, u8, u9, u10⟩ := hC
      simp [ToCommandArgs, mem_ite_nil, mem_flag_pair, hproto,
        u1, u2, u3, u4, u5, u6, u7, u8, u9] at hmem
      obtain ⟨k, v, hkv, hin⟩ := hmem
      have hkv2 := u10 (k, v) hkv
      rcases hin with h | h
      · exact hkv2.1 h
      · exact hkv2.2 h.2
    · intro hmem
      obtain ⟨u1, u2, u3, u4, u5, u6, u7, u8, u9, u10⟩ := hM
      simp [ToCommandArgs, mem_ite_nil, mem_flag_pair, hproto,
        u1, u2, u3, u4, u5, u6, u7, u8, u9] at hmem
      obtain ⟨k, v, hkv, hin⟩ := hmem
      have hkv2 := u10 (k, v) hkv
      rcases hin with h | h
      · exact hkv2.1 h
      · exact hkv2.2 h.2
    · intro hmem
      obtain ⟨u1, u2, u3, u4, u5, u6, u7, u8, u9, u10⟩ := hN
      simp [ToCommandArgs, mem_ite_nil, mem_flag_pair, hproto,
        u1, u2, u3, u4, u5, u6, u7, u8, u9] at hmem
      obtain ⟨k, v, hkv, hin⟩ := hmem
      have hkv2 := u10 (k, v) hkv
      rcases hin with h | h
      · exact hkv2.1 h
      · exact hkv2.2 h.2

end Models

namespace Aggregator

theorem sumStep_fields (acc : Summary × ℚ) (r : TestResult) :
    (sumStep acc r).1.CompletedTests
      = acc.1.CompletedTests
        + (if r.Status = "TEST_STATUS_COMPLETED" then 1 else 0)
    ∧ (sumStep acc r).2
      = acc.2 + (if r.Status = "TEST_STATUS_COMPLETED" ∧ r.ThroughputBps > 0
          then r.ThroughputBps else 0)
    ∧ (sumStep acc r).1.AvgThroughput = acc.1.AvgThroughput := by
  rw [sumStep]
  by_cases hc : r.Status = "TEST_STATUS_COMPLETED"
  · rw [if_pos hc]
    by_cases hp : r.ThroughputBps > 0
    · simp [hc, hp]
    · simp [hc, hp]
  · rw [if_neg hc]
    by_cases hf : r.Status = "TEST_STATUS_FAILED"
    · simp [hc, hf]
    · simp [hc, hf]

theorem countCompleted_cons (r : TestResult) (rest : List TestResult) :
    (countCompleted (r :: rest) : Int)
      = (if r.Status = "TEST_STATUS_COMPLETED" then 1 else 0)
        + (countCompleted rest : Int) := by
  by_cases hc : r.Status = "TEST_STATUS_COMPLETED"
  · simp [countCompleted, List.filter_cons, hc]
    push_cast
    ring
  · simp [countCompleted, List.filter_cons, hc]

theorem posSum_cons (r : TestResult) (rest : List TestResult) :
    posSum (r :: rest)
      = (if r.Status = "TEST_STATUS_COMPLETED" ∧ r.ThroughputBps > 0
          then r.ThroughputBps else 0) + posSum rest := by
  by_cases h : r.Status = "TEST_STATUS_COMPLETED" ∧ r.ThroughputBps > 0
  · simp [posSum, List.filter_cons, h]
  · simp [posSum, List.filter_cons, h]

theorem sumFold_inv (results : List TestResult) (s0 : Summary) (tot0 : ℚ) :
    (results.foldl sumStep (s0, tot0)).1.CompletedTests
        = s0.CompletedTests + (countCompleted results : Int)
    ∧ (results.foldl sumStep (s0, tot0)).2 = tot0 + posSum results
    ∧ (results.foldl sumStep (s0, tot0)).1.AvgThroughput
        = s0.AvgThroughput := by
  induction results generalizing s0 tot0 with
  | nil => simp [countCompleted, posSum]
  | cons r rest ih =>
    have hs := sumStep_fields (s0, tot0) r
    have hrec := ih (sumStep (s0, tot0) r).1 (sumStep (s0, tot0) r).2
    rw [Prod.mk.eta] at hrec
    refine ⟨?_, ?_, ?_⟩
    · rw [List.foldl_cons, hrec.1, hs.1, countCompleted_cons]
      ring
    · rw [List.foldl_cons, hrec.2.1, hs.2.1, posSum_cons]
      ring
    · rw [List.foldl_cons, hrec.2.2, hs.2.2]

/-- C4 (amended): `avg_throughput_bps` equals the sum of `throughput_bps`
over the completed results with positive throughput divided by the number of
ALL completed results (not just the positive ones), and 0 when no result is
completed. -/
theorem C4_summary_average (results : List TestResult) :
    (GetSummary results).CompletedTests = (countCompleted results : Int)
    ∧ (GetSummary results).AvgThroughput
      = if countCompleted results = 0 then 0
        else posSum results / (countCompleted results : ℚ) := by
  have h := sumFold_inv results ⟨(results.length : Int), 0, 0, 0, -1, 0, 0⟩ 0
  rw [GetSummary]
  dsimp only
  obtain ⟨h1, h2, h3⟩ := h
  dsimp only at h1 h2 h3
  rw [zero_add] at h1 h2
  constructor
  · exact h1
  · rw [h1, h2, h3]
    by_cases hc : countCompleted results = 0
    · rw [if_pos hc, hc]
      simp
    · have hpos : (0 : Int) < (countCompleted results : Int) := by
        have := Nat.pos_of_ne_zero hc
        exact_mod_cast this
      rw [if_pos hpos, if_neg hc]
      push_cast
      ring

/-- C4 counterexample: with two completed results of throughput 10 and 0, the
code reports average 5 (divides by all completed results), while the claimed
mean over the positive-throughput completed results is 10. -/
theorem C4_counterexample :
    (GetSummary [⟨"t1", "TEST_STATUS_COMPLETED", 10, 0⟩,
        ⟨"t2", "TEST_STATUS_COMPLETED", 0, 0⟩]).AvgThroughput
      ≠ specAvgThroughput [⟨"t1", "TEST_STATUS_COMPLETED", 10, 0⟩,
        ⟨"t2", "TEST_STATUS_COMPLETED", 0, 0⟩] := by
  have h1 : (GetSummary [⟨"t1", "TEST_STATUS_COMPLETED", 10, 0⟩,
      ⟨"t2", "TEST_STATUS_COMPLETED", 0, 0⟩]).AvgThroughput = 5 := by
    norm_num [GetSummary, sumStep]
  have h2 : specAvgThroughput [⟨"t1", "TEST_STATUS_COMPLETED", 10, 0⟩,
      ⟨"t2", "TEST_STATUS_COMPLETED", 0, 0⟩] = 10 := by
    norm_num [specAvgThroughput]
  rw [h1, h2]
  norm_num

end Aggregator

namespace Server

theorem runBatch_partition {σ α : Type} (startOne : σ → α → σ × Option String)
    (st : σ) (items : List α) :
    (runBatch startOne st items).2.1.length
        + (runBatch startOne st items).2.2.length = items.length
    ∧ (∀ x ∈ (runBatch startOne st items).2.1, x ∈ items)
    ∧ (∀ xe ∈ (runBatch startOne st items).2.2, xe.1 ∈ items)
    ∧ ∀ x ∈ items, x ∈ (runBatch startOne st items).2.1
        ∨ ∃ e, (x, e) ∈ (runBatch startOne st items).2.2 := by
  induction items generalizing st with
  | nil => simp [runBatch]
  | cons item rest ih =>
    rw [runBatch]
    have h := ih (startOne st item).1
    cases hr : (startOne st item).2 with
    | none =>
      dsimp only
      have h1 := h.1
      refine ⟨?_, ?_, ?_, ?_⟩
      · simp only [List.length_cons]
        omega
      · intro x hx
        rcases List.mem_cons.mp hx with hx1 | hx1
        · exact hx1 ▸ List.mem_cons_self _ _
        · exact List.mem_cons_of_mem _ (h.2.1 x hx1)
      · intro xe hxe
        exact List.mem_cons_of_mem _ (h.2.2.1 xe hxe)
      · intro x hx
        rcases List.mem_cons.mp hx with hx1 | hx1
        · exact Or.inl (hx1 ▸ List.mem_cons_self _ _)
        · rcases h.2.2.2 x hx1 with hm | ⟨e, hm⟩
          · exact Or.inl (List.mem_cons_of_mem _ hm)
          · exact Or.inr ⟨e, hm⟩
    | some e0 =>
      dsimp only
      have h1 := h.1
      refine ⟨?_, ?_, ?_, ?_⟩
      · simp only [List.length_cons]
        omega
      · intro x hx
        exact List.mem_cons_of_mem _ (h.2.1 x hx)
      · intro xe hxe
        rcases List.mem_cons.mp hxe with hx1 | hx1
        · rw [hx1]
          exact List.mem_cons_self _ _
        · exact List.mem_cons_of_mem _ (h.2.2.1 xe hx1)
      · intro x hx
        rcases List.mem_cons.mp hx with hx1 | hx1
        · exact Or.inr ⟨e0, by rw [hx1]; exact List.mem_cons_self _ _⟩
        · rcases h.2.2.2 x hx1 with hm | ⟨e, hm⟩
          · exact Or.inl hm
          · exact Or.inr ⟨e, List.mem_cons_of_mem _ hm⟩

/-- C7: each batch handler reports success exactly when at least one item
started; the successes and the per-item errors partition the request items,
every failed item contributing an error entry and every started item
appearing in the started list. -/
theorem C7_batch_start_partial_success {σ : Type}
    (startServer : σ → Nat → σ × Option String)
    (startClient : σ → ClientTarget → σ × Option String)
    (st st2 : σ) (ports : List Nat) (targets : List ClientTarget) :
    (((StartServers startServer st ports).1.Success = true
        ↔ (StartServers startServer st ports).1.StartedPorts ≠ [])
      ∧ (StartServers startServer st ports).1.StartedPorts.length
          + (StartServers startServer st ports).1.Errors.length = ports.length
      ∧ ∀ p ∈ ports, p ∈ (StartServers startServer st ports).1.StartedPorts
          ∨ ∃ e, ("port " ++ toString p ++ ": " ++ e)
              ∈ (StartServers startServer st ports).1.Errors)
  ∧ (((StartClients startClient st2 targets).1.Success = true
        ↔ (StartClients startClient st2 targets).1.StartedTestIds ≠ [])
      ∧ (StartClients startClient st2 targets).1.StartedTestIds.length
          + (StartClients startClient st2 targets).1.Errors.length
            = targets.length
      ∧ ∀ tg ∈ targets,
          tg.TestId ∈ (StartClients startClient st2 targets).1.StartedTestIds
          ∨ ∃ e, ("test " ++ tg.TestId ++ ": " ++ e)
              ∈ (StartClients startClient st2 targets).1.Errors) := by
  constructor
  · rw [StartServers]
    by_cases h0 : ports.length = 0
    · rw [if_pos h0]
      have hnil : ports = [] := List.length_eq_zero.mp h0
      subst hnil
      refine ⟨by simp, by simp, by simp⟩
    · rw [if_neg h0]
      have hp := runBatch_partition startServer st ports
      dsimp only
      refine ⟨?_, ?_, ?_⟩
      · rw [decide_eq_true_iff]
        rw [List.length_pos]
      · rw [List.length_map]
        exact hp.1
      · intro p hmem
        rcases hp.2.2.2 p hmem with hm | ⟨e, hm⟩
        · exact Or.inl hm
        · refine Or.inr ⟨e, ?_⟩
          have := List.mem_map_of_mem
            (fun pe : Nat × String => "port " ++ toString pe.1 ++ ": " ++ pe.2)
            hm
          exact this
  · rw [StartClients]
    by_cases h0 : targets.length = 0
    · rw [if_pos h0]
      have hnil : targets = [] := List.length_eq_zero.mp h0
      subst hnil
      refine ⟨by simp, by simp, by simp⟩
    · rw [if_neg h0]
      have hp := runBatch_partition startClient st2 targets
      dsimp only
      refine ⟨?_, ?_, ?_⟩
      · rw [decide_eq_true_iff, Ne, List.map_eq_nil]
        exact List.length_pos
      · rw [List.length_map, List.length_map]
        exact hp.1
      · intro tg hmem
        rcases hp.2.2.2 tg hmem with hm | ⟨e, hm⟩
        · exact Or.inl (List.mem_map_of_mem (fun x : ClientTarget => x.TestId) hm)
        · refine Or.inr ⟨e, ?_⟩
          exact List.mem_map_of_mem
            (fun te : ClientTarget × String => "test " ++ te.1.TestId ++ ": " ++ te.2)
            hm

end Server

namespace Topology

theorem enumFrom_filter_map_snd {α β : Type} (q : α → Bool) (g : α → β)
    (l : List α) : ∀ n : Nat,
    ((List.enumFrom n l).filter (fun ie => q ie.2)).map (fun ie => g ie.2)
      = (l.filter q).map g := by
  induction l with
  | nil => intro n; rfl
  | cons a rest ih =>
    intro n
    rw [List.enumFrom_cons]
    by_cases h : q a
    · simp only [List.filter_cons, h, eq_self_iff_true, if_true, List.map_cons,
        ih]
    · simp only [List.filter_cons]
      rw [if_neg (by simpa using h), if_neg (by simpa using h), ih]

theorem block_general (l : List String) (d s : String) :
    (((l.filter (fun x => decide (x ≠ s))).map (fun x => (s, x))).filter
        (fun sd => decide (sd.2 = d))).map (fun sd => sd.1)
      = List.replicate ((l.filter (fun x => decide (x ≠ s))).count d) s := by
  induction l with
  | nil => rfl
  | cons a rest ih =>
    by_cases has : a = s
    · simp only [List.filter_cons, has]
      rw [if_neg (by simp)]
      exact ih
    · simp only [List.filter_cons]
      rw [if_pos (by simp [has])]
      by_cases had : a = d
      · simp only [List.map_cons, List.filter_cons]
        rw [if_pos (by simp [had]), List.count_cons, if_pos (by simp [had])]
        rw [List.map_cons, List.replicate_succ, ih]
      · simp only [List.map_cons, List.filter_cons]
        rw [if_neg (by simp [had]), List.count_cons, if_neg (by simp [had]), ih]
        rw [Nat.add_zero]

theorem count_filter_ne (nodes : List String) (d s : String)
    (hnd : nodes.Nodup) (hd : d ∈ nodes) :
    (nodes.filter (fun x => decide (x ≠ s))).count d
      = if s = d then 0 else 1 := by
  by_cases hsd : s = d
  · rw [if_pos hsd]
    rw [List.count_eq_zero]
    intro hmem
    have := List.of_mem_filter hmem
    simp [hsd] at this
  · rw [if_neg hsd]
    rw [List.count_filter (by simp; exact fun e => hsd e.symm)]
    exact List.count_eq_one_of_mem hnd hd

theorem orderedPairs_dest_filter (nodes : List String) (d : String)
    (hnd : nodes.Nodup) (hd : d ∈ nodes) :
    ((orderedPairs nodes).filter (fun sd => decide (sd.2 = d))).map
        (fun sd => sd.1)
      = nodes.filter (fun s => decide (s ≠ d)) := by
  have hblock : ∀ s : String,
      (((nodes.filter (fun x => decide (x ≠ s))).map (fun x => (s, x))).filter
          (fun sd => decide (sd.2 = d))).map (fun sd => sd.1)
        = if s = d then [] else [s] := by
    intro s
    rw [block_general, count_filter_ne nodes d s hnd hd]
    by_cases hsd : s = d
    · rw [if_pos hsd, if_pos hsd]
      rfl
    · rw [if_neg hsd, if_neg hsd]
      rfl
  suffices h : ∀ l : List String,
      ((l.flatMap (fun s => (nodes.filter (fun x => decide (x ≠ s))).map
          (fun x => (s, x)))).filter (fun sd => decide (sd.2 = d))).map
        (fun sd => sd.1)
      = l.filter (fun s => decide (s ≠ d)) by
    exact h nodes
  intro l
  induction l with
  | nil => rfl
  | cons s rest ih =>
    rw [List.flatMap_cons, List.filter_append, List.map_append, ih, hblock s]
    by_cases hsd : s = d
    · rw [if_pos hsd, List.filter_cons, if_neg (by simp [hsd])]
      rfl
    · rw [if_neg hsd, List.filter_cons, if_pos (by simp [hsd])]
      rfl

theorem sourcesOf_fullMesh (nodes : List String)
    (prof : String → String → Models.TestProfile) (d : String)
    (hnd : nodes.Nodup) (hd : d ∈ nodes) :
    sourcesOf (fullMeshPairs nodes prof) d
      = nodes.filter (fun s => decide (s ≠ d)) := by
  rw [sourcesOf, fullMeshPairs, List.filter_map, List.map_map]
  have := enumFrom_filter_map_snd
    (fun sd : String × String => decide (sd.2 = d))
    (fun sd : String × String => sd.1) (orderedPairs nodes) 0
  rw [show List.enum (orderedPairs nodes)
      = List.enumFrom 0 (orderedPairs nodes) from rfl] at *
  exact this.trans (orderedPairs_dest_filter nodes d hnd hd)

theorem filter_ne_length (nodes : List String) (d : String)
    (hnd : nodes.Nodup) (hd : d ∈ nodes) :
    (nodes.filter (fun x => decide (x ≠ d))).length = nodes.length - 1 := by
  induction nodes with
  | nil => cases hd
  | cons n rest ih =>
    rw [List.filter_cons]
    by_cases hn : n = d
    · rw [if_neg (by simp [hn])]
      have hrest : d ∉ rest := by
        rw [← hn]
        exact (List.nodup_cons.mp hnd).1
      have : rest.filter (fun x => decide (x ≠ d)) = rest := by
        rw [List.filter_eq_self]
        intro a ha
        simp
        intro he
        exact hrest (he ▸ ha)
      rw [this, List.length_cons]
      omega
    · rw [if_pos (by simp [hn])]
      have hdr : d ∈ rest := by
        rcases List.mem_cons.mp hd with h1 | h1
        · exact absurd h1.symm hn
        · exact h1
      have hlen := ih (List.nodup_cons.mp hnd).2 hdr
      have hpos : 0 < rest.length := List.length_pos.mpr
        (List.ne_nil_of_mem hdr)
      rw [List.length_cons, List.length_cons, hlen]
      omega

theorem allocServerPorts_lookup (nodes : List String) (k : Nat) (d : String) :
    ∀ ctr : Nat, d ∈ nodes →
      ∃ base, List.lookup d (allocServerPorts nodes k ctr)
        = some ((List.range k).map (fun i => base + i)) := by
  induction nodes with
  | nil =>
    intro ctr hd
    cases hd
  | cons n rest ih =>
    intro ctr hd
    rw [allocServerPorts]
    by_cases h : d = n
    · exact ⟨ctr, by rw [lookup_cons, if_pos h]⟩
    · rcases List.mem_cons.mp hd with h1 | h1
      · exact absurd h1 h
      · obtain ⟨base, hb⟩ := ih (ctr + k) h1
        exact ⟨base, by rw [lookup_cons, if_neg h]; exact hb⟩

theorem buildS2PGo_not_mem (srcs : List String) (ports : List Nat)
    (s : String) (hs : s ∉ srcs) :
    ∀ (i : Nat) (m : List (String × Nat)),
      List.lookup s (buildS2PGo srcs ports i m) = List.lookup s m := by
  induction srcs with
  | nil =>
    intro i m
    rfl
  | cons x rest ih =>
    intro i m
    have hxs : x ≠ s := fun e => hs (e ▸ List.mem_cons_self x rest)
    have hs2 : s ∉ rest := fun hr => hs (List.mem_cons_of_mem _ hr)
    rw [buildS2PGo, ih hs2]
    by_cases hi : i < ports.length
    · rw [if_pos hi, lookup_setA_ne _ _ _ _ (fun e => hxs e.symm)]
    · rw [if_neg hi]

theorem buildS2PGo_lookup (srcs : List String) (ports : List Nat)
    (s : String) :
    srcs.Nodup → ∀ (i0 : Nat) (m : List (String × Nat)) (j : Nat),
      List.findIdx? (fun x => x == s) srcs i0 = some j →
      j < ports.length →
      List.lookup s (buildS2PGo srcs ports i0 m)
        = some (ports.getD j 0) := by
  induction srcs with
  | nil =>
    intro _ i0 m j hfind hlt
    simp [List.findIdx?] at hfind
  | cons x rest ih =>
    intro hnd i0 m j hfind hlt
    rw [List.findIdx?_cons] at hfind
    by_cases hx : x = s
    · rw [if_pos (by simp [hx])] at hfind
      simp only [Option.some.injEq] at hfind
      subst hfind
      rw [buildS2PGo]
      have hs2 : s ∉ rest := hx ▸ (List.nodup_cons.mp hnd).1
      rw [buildS2PGo_not_mem rest ports s hs2, if_pos hlt]
      rw [hx] at *
      exact lookup_setA_self m s (ports.getD i0 0)
    · rw [if_neg (by simp [hx])] at hfind
      rw [buildS2PGo]
      exact ih (List.nodup_cons.mp hnd).2 (i0 + 1) _ j hfind hlt

theorem findIdx?_ge {α : Type} (p : α → Bool) (l : List α) :
    ∀ i j, List.findIdx? p l i = some j → i ≤ j := by
  induction l with
  | nil =>
    intro i j h
    simp [List.findIdx?] at h
  | cons a rest ih =>
    intro i j h
    rw [List.findIdx?_cons] at h
    by_cases hp : p a
    · rw [if_pos hp] at h
      simp only [Option.some.injEq] at h
      omega
    · rw [if_neg hp] at h
      have := ih (i + 1) j h
      omega

theorem findIdx?_beq_of_mem (srcs : List String) (s : String)
    (hs : s ∈ srcs) :
    ∀ i0, ∃ j, List.findIdx? (fun x => x == s) srcs i0 = some j
      ∧ i0 ≤ j ∧ j - i0 < srcs.length := by
  induction srcs with
  | nil => cases hs
  | cons x rest ih =>
    intro i0
    rw [List.findIdx?_cons]
    by_cases hx : (x == s) = true
    · refine ⟨i0, ?_, le_refl i0, by simp⟩
      rw [if_pos hx]
    · have hsr : s ∈ rest := by
        rcases List.mem_cons.mp hs with h1 | h1
        · exact absurd (by simp [h1]) hx
        · exact h1
      obtain ⟨j, hj, hge, hlt⟩ := ih hsr (i0 + 1)
      refine ⟨j, ?_, by omega, by simp only [List.length_cons]; omega⟩
      rw [if_neg hx]
      exact hj

theorem findIdx?_beq_val (srcs : List String) (s : String) :
    ∀ i0 j, List.findIdx? (fun x => x == s) srcs i0 = some j →
      srcs[j - i0]? = some s := by
  induction srcs with
  | nil =>
    intro i0 j h
    simp [List.findIdx?] at h
  | cons x rest ih =>
    intro i0 j h
    rw [List.findIdx?_cons] at h
    by_cases hx : (x == s) = true
    · rw [if_pos hx] at h
      simp only [Option.some.injEq] at h
      subst h
      simp only [Nat.sub_self]
      have : x = s := by simpa using hx
      rw [this]
      simp
    · rw [if_neg hx] at h
      have hge := findIdx?_ge (fun x => x == s) rest (i0 + 1) j h
      have := ih (i0 + 1) j h
      have hj : j - i0 = (j - (i0 + 1)) + 1 := by omega
      rw [hj]
      simpa using this

theorem mapM_ok {α β : Type} (f : α → Except String β) (g : α → β)
    (l : List α) (h : ∀ a ∈ l, f a = .ok (g a)) :
    l.mapM f = .ok (l.map g) := by
  induction l with
  | nil => rfl
  | cons a rest ih =>
    rw [List.mapM_cons, h a (List.mem_cons_self a rest),
      ih (fun b hb => h b (List.mem_cons_of_mem _ hb))]
    rfl

/-- C1: in the generated full mesh over a registry of N ≥ 2 nodes, every
destination gets a server-port list of length N−1; for every ordered pair
(s, d) the client-side port equals the port at s's position in d's server
assignments; and two different sources never share a port at the same
destination. -/
theorem C1_full_mesh_port_consistency (nodes : List String)
    (prof : String → String → Models.TestProfile)
    (h2 : 2 ≤ nodes.length) (hnd : nodes.Nodup)
    (s d : String) (hs : s ∈ nodes) (hd : d ∈ nodes) (hne : s ≠ d) :
    ∃ topo : Topology, GenerateFullMesh nodes prof = .ok topo
      ∧ ∃ ports : List Nat, List.lookup d topo.ServerPorts = some ports
        ∧ ports.length = nodes.length - 1
        ∧ (∃ (i : Nat) (port : Nat) (sas : List Assign),
            List.findIdx? (fun x => x == s) (sourcesOf topo.Pairs d) = some i
            ∧ serverAssignsFor topo.Pairs d ports = .ok sas
            ∧ sas[i]? = some ⟨s, d, port⟩
            ∧ clientPortCalc topo.Pairs topo.ServerPorts s d = .ok port)
        ∧ ∀ s2, s2 ∈ nodes → s2 ≠ d → s2 ≠ s →
            clientPortCalc topo.Pairs topo.ServerPorts s2 d
              ≠ clientPortCalc topo.Pairs topo.ServerPorts s d := by
  have hgen : GenerateFullMesh nodes prof
      = .ok ⟨fullMeshPairs nodes prof,
          allocServerPorts nodes (nodes.length - 1) 5201,
          nodes.map (fun x => (x, (fullMeshPairs nodes prof).filter
            (fun p => decide (p.Source = x))))⟩ := by
    rw [GenerateFullMesh, if_neg (by omega)]
  refine ⟨_, hgen, ?_⟩
  dsimp only
  obtain ⟨base, hlook⟩ :=
    allocServerPorts_lookup nodes (nodes.length - 1) d 5201 hd
  have hsrcs : sourcesOf (fullMeshPairs nodes prof) d
      = nodes.filter (fun x => decide (x ≠ d)) :=
    sourcesOf_fullMesh nodes prof d hnd hd
  have hsnd : (sourcesOf (fullMeshPairs nodes prof) d).Nodup := by
    rw [hsrcs]
    exact hnd.filter _
  have hslen : (sourcesOf (fullMeshPairs nodes prof) d).length
      = nodes.length - 1 := by
    rw [hsrcs]
    exact filter_ne_length nodes d hnd hd
  have hplen : ((List.range (nodes.length - 1)).map
      (fun i => base + i)).length = nodes.length - 1 := by
    rw [List.length_map, List.length_range]
  have hplen0 : ¬ ((List.range (nodes.length - 1)).map
      (fun i => base + i)).length = 0 := by
    rw [hplen]
    omega
  have hgetp : ∀ j, j < nodes.length - 1 →
      ((List.range (nodes.length - 1)).map (fun i => base + i))[j]?
        = some (base + j) := by
    intro j hj
    rw [List.getElem?_map, List.getElem?_range hj]
    rfl
  have hcpc : ∀ x, x ∈ nodes → x ≠ d →
      ∃ jx, List.findIdx? (fun y => y == x)
          (sourcesOf (fullMeshPairs nodes prof) d) = some jx
        ∧ (sourcesOf (fullMeshPairs nodes prof) d)[jx]? = some x
        ∧ jx < nodes.length - 1
        ∧ clientPortCalc (fullMeshPairs nodes prof)
            (allocServerPorts nodes (nodes.length - 1) 5201) x d
          = .ok (base + jx) := by
    intro x hx hxd
    have hxmem : x ∈ sourcesOf (fullMeshPairs nodes prof) d := by
      rw [hsrcs]
      exact List.mem_filter.mpr ⟨hx, by simp [hxd]⟩
    obtain ⟨jx, hjfind, hjge, hjlt⟩ :=
      findIdx?_beq_of_mem (sourcesOf (fullMeshPairs nodes prof) d) x
        hxmem 0
    rw [Nat.sub_zero, hslen] at hjlt
    have hjval := findIdx?_beq_val
      (sourcesOf (fullMeshPairs nodes prof) d) x 0 jx hjfind
    rw [Nat.sub_zero] at hjval
    refine ⟨jx, hjfind, hjval, hjlt, ?_⟩
    rw [clientPortCalc]
    simp only [hlook, Option.getD_some]
    rw [if_neg hplen0, hjfind]
    simp only [hgetp jx hjlt]
  refine ⟨_, hlook, ?_, ?_, ?_⟩
  · rw [List.length_map, List.length_range]
  · obtain ⟨i, hfind, hival, hilt, hcalc⟩ := hcpc s hs hne
    have hserver : serverAssignsFor (fullMeshPairs nodes prof) d
        ((List.range (nodes.length - 1)).map (fun i => base + i))
      = .ok (((fullMeshPairs nodes prof).filter
          (fun p => decide (p.Destination = d))).map
        (fun p => (⟨p.Source, d,
          ((List.range (nodes.length - 1)).map (fun i => base + i)).getD
            ((List.findIdx? (fun y => y == p.Source)
              (sourcesOf (fullMeshPairs nodes prof) d)).getD 0) 0⟩
          : Assign))) := by
      rw [serverAssignsFor]
      apply mapM_ok
      intro p hp
      have hpsrc : p.Source ∈ sourcesOf (fullMeshPairs nodes prof) d := by
        rw [sourcesOf]
        exact List.mem_map_of_mem (fun q => q.Source) hp
      obtain ⟨jp, hjp, hjpval, hjplt, _⟩ := hcpc p.Source
        (by rw [hsrcs] at hpsrc; exact (List.mem_filter.mp hpsrc).1)
        (by rw [hsrcs] at hpsrc
            have := (List.mem_filter.mp hpsrc).2
            simpa using this)
      rw [buildSourceToPort]
      rw [buildS2PGo_lookup (sourcesOf (fullMeshPairs nodes prof) d)
        ((List.range (nodes.length - 1)).map (fun i => base + i))
        p.Source hsnd 0 [] jp hjp (by rw [hplen]; exact hjplt)]
      rw [hjp]
      rfl
    refine ⟨i, base + i, _, hfind, hserver, ?_, hcalc⟩
    rw [List.getElem?_map]
    have hsrcmap : sourcesOf (fullMeshPairs nodes prof) d
        = ((fullMeshPairs nodes prof).filter
            (fun p => decide (p.Destination = d))).map
          (fun p => p.Source) := rfl
    rw [hsrcmap, List.getElem?_map] at hival
    obtain ⟨pi, hpi, hpisrc⟩ := Option.map_eq_some'.mp hival
    rw [hpi]
    simp only [Option.map_some']
    have hpifind : List.findIdx? (fun y => y == pi.Source)
        (sourcesOf (fullMeshPairs nodes prof) d) = some i := by
      rw [hpisrc]
      exact hfind
    rw [Option.some.injEq]
    show (⟨pi.Source, d,
      ((List.range (nodes.length - 1)).map (fun i => base + i)).getD
        ((List.findIdx? (fun y => y == pi.Source)
          (sourcesOf (fullMeshPairs nodes prof) d)).getD 0) 0⟩ : Assign)
      = ⟨s, d, base + i⟩
    rw [hpifind, hpisrc]
    simp only [Option.getD_some]
    rw [List.getD_eq_getElem?_getD, hgetp i hilt]
    rfl
  · intro s2 hs2 hs2d hs2s
    obtain ⟨i, hfind, hival, hilt, hcalc⟩ := hcpc s hs hne
    obtain ⟨i2, hfind2, hival2, hilt2, hcalc2⟩ := hcpc s2 hs2 hs2d
    rw [hcalc, hcalc2]
    intro he
    simp only [Except.ok.injEq] at he
    have hii : i2 = i := by omega
    rw [hii] at hival2
    rw [hival2] at hival
    simp only [Option.some.injEq] at hival
    exact hs2s hival

/-- Closed instance of C1 on the registry (a, b, c) with the pair (b, a). -/
theorem C1_full_mesh_port_consistency_witness :
    ∃ topo : Topology,
      GenerateFullMesh ["a", "b", "c"] (fun _ _ => Models.bProf) = .ok topo
      ∧ ∃ ports : List Nat, List.lookup "a" topo.ServerPorts = some ports
        ∧ ports.length = (["a", "b", "c"] : List String).length - 1
        ∧ (∃ (i : Nat) (port : Nat) (sas : List Assign),
            List.findIdx? (fun x => x == "b") (sourcesOf topo.Pairs "a")
              = some i
            ∧ serverAssignsFor topo.Pairs "a" ports = .ok sas
            ∧ sas[i]? = some ⟨"b", "a", port⟩
            ∧ clientPortCalc topo.Pairs topo.ServerPorts "b" "a" = .ok port)
        ∧ ∀ s2, s2 ∈ (["a", "b", "c"] : List String) → s2 ≠ "a" → s2 ≠ "b" →
            clientPortCalc topo.Pairs topo.ServerPorts s2 "a"
              ≠ clientPortCalc topo.Pairs topo.ServerPorts "b" "a" :=
  C1_full_mesh_port_consistency ["a", "b", "c"] (fun _ _ => Models.bProf)
    (by decide) (by decide) "b" "a" (by decide) (by decide) (by decide)

/-- C3 (amended): the orchestrator's full-mesh generator
(`internal/controller/topology`) emits exactly one test pair per ordered
(source, destination) pair whatever the profiles' bidirectional flags say,
and a bidirectional profile is passed to iperf3 as `--bidir` in its argv;
the `models.TestMatrix.GenerateFullMesh` variant, by contrast, emits an
additional reverse pair (see the counterexample). -/
theorem C3_full_mesh_no_reverse_pair (nodes : List String)
    (prof : String → String → Models.TestProfile) (hnd : nodes.Nodup)
    (s d : String) (hs : s ∈ nodes) (hd : d ∈ nodes) (hne : s ≠ d) :
    ((fullMeshPairs nodes prof).filter
        (fun p => decide (p.Source = s ∧ p.Destination = d))).length = 1
    ∧ ∀ q : Models.TestProfile, q.Bidirectional = true →
        "--bidir" ∈ Models.ToCommandArgs q := by
  constructor
  · have hsplit : (fullMeshPairs nodes prof).filter
        (fun p => decide (p.Source = s ∧ p.Destination = d))
      = ((fullMeshPairs nodes prof).filter
          (fun p => decide (p.Destination = d))).filter
        (fun p => decide (p.Source = s)) := by
      rw [List.filter_filter]
      apply List.filter_congr
      intro p hp
      by_cases h1 : p.Source = s
      · by_cases h2 : p.Destination = d
        · simp [h1, h2]
        · simp [h1, h2]
      · by_cases h2 : p.Destination = d
        · simp [h1, h2]
        · simp [h1, h2]
    rw [hsplit, ← List.countP_eq_length_filter]
    have hmap := List.countP_map (fun x => decide (x = s))
      (fun p : TestPair => p.Source)
      ((fullMeshPairs nodes prof).filter (fun p => decide (p.Destination = d)))
    have hcongr : List.countP
        (fun p : TestPair => decide (p.Source = s))
        ((fullMeshPairs nodes prof).filter
          (fun p => decide (p.Destination = d)))
      = List.countP ((fun x => decide (x = s)) ∘ (fun p : TestPair => p.Source))
        ((fullMeshPairs nodes prof).filter
          (fun p => decide (p.Destination = d))) := by
      apply List.countP_congr
      intro p hp
      simp [Function.comp]
    rw [hcongr, ← hmap]
    have hsrcs2 : ((fullMeshPairs nodes prof).filter
          (fun p => decide (p.Destination = d))).map
        (fun p : TestPair => p.Source)
      = nodes.filter (fun x => decide (x ≠ d)) :=
      sourcesOf_fullMesh nodes prof d hnd hd
    rw [hsrcs2]
    have hc : List.countP (fun x => decide (x = s))
        (nodes.filter (fun x => decide (x ≠ d)))
      = List.count s (nodes.filter (fun x => decide (x ≠ d))) := by
      rw [List.count_eq_countP]
      apply List.countP_congr
      intro x hx
      constructor
      · intro h
        simp at h
        simp [h]
      · intro h
        simp at h
        simp [h]
    rw [hc]
    rw [List.count_filter (by simp; exact hne)]
    exact List.count_eq_one_of_mem hnd hs
  · intro q hq
    simp [Models.ToCommandArgs, hq]

/-- C3 counterexample: `models.TestMatrix.GenerateFullMesh` with a
bidirectional default profile on two nodes emits the (a, b) assignment
twice — once directly and once as the reverse of (b, a). -/
theorem C3_counterexample :
    ((TestMatrixGenerateFullMesh ["a", "b"] (fun _ _ => Models.bProf)).filter
        (fun t => decide (t.2.1 = "a" ∧ t.2.2 = "b"))).length ≠ 1 := by
  decide

/-- Closed instance of C3 (amended) on the registry (a, b, c). -/
theorem C3_full_mesh_no_reverse_pair_witness :
    ((fullMeshPairs ["a", "b", "c"] (fun _ _ => Models.bProf)).filter
        (fun p => decide (p.Source = "a" ∧ p.Destination = "b"))).length = 1
    ∧ ∀ q : Models.TestProfile, q.Bidirectional = true →
        "--bidir" ∈ Models.ToCommandArgs q :=
  C3_full_mesh_no_reverse_pair ["a", "b", "c"] (fun _ _ => Models.bProf)
    (by decide) "a" "b" (by decide) (by decide) (by decide)

end Topology

namespace Models

/-- Closed instance of C9 on a concrete UDP profile. -/
theorem C9_argv_udp_tcp_flags_witness :
    "-u" ∈ ToCommandArgs uProf
    ∧ "-C" ∉ ToCommandArgs uProf
    ∧ "-M" ∉ ToCommandArgs uProf
    ∧ "-N" ∉ ToCommandArgs uProf := by
  have h := C9_argv_udp_tcp_flags uProf (by decide)
  have hp : uProf.Protocol = ProtocolUDP := rfl
  exact ⟨h.1.mpr hp, (h.2 hp).1, (h.2 hp).2.1, (h.2 hp).2.2⟩

end Models

end IperfCnc